import Mathlib

/-!
# FT stock simulation: the projection engine of `FT_frontend/script.js`

A shallow embedding of the simulation logic of `script.js` (the day-by-day price
projection, its local random-walk fallback, the demo-data synthesiser, the derived
view computed by `updateUI`, `fastForward` and `loadStock`), followed by theorems
about it.

Modelling conventions.

* JavaScript numbers are IEEE 754 binary64 values (`Num`): a finite value is kept as
  the rational it denotes, every arithmetic operation rounds the exact result to the
  nearest binary64 value, ties to even, and overflows to an infinity (`toDouble`).
  The two zeros are identified.
* Values read from the session state or from a backend body are `Val`: `null`,
  `undefined`, a number, a string, a boolean, an array, or a function or plain
  object.
* Functions that can throw return a `Completion`, which carries the state at the
  point of the throw: mutations made before an exception stay visible to the
  `catch` block, as in JavaScript.
* Everything nondeterministic that a call consumes (backend replies, `Math.random()`
  draws, the clock and time zone, the `Math` functions, whose results the language
  leaves to the implementation) is an explicit argument.
* Calendar dates (the `YYYY-MM-DD` strings) are represented by their day number,
  the number of days since 1970-01-01 (a Thursday).
* The chart (`updateChart`) and the timers that hide messages are rendering only and
  are not modelled; `updateChart` reads the state and never writes it.
-/

namespace StockSim

set_option maxRecDepth 100000

/-! ## Numbers and values -/

/-- JavaScript number: a finite value, `NaN`, or an infinity (`neg = true` for `-Infinity`). -/
inductive Num where
  | fin (q : ℚ)
  | nan
  | inf (neg : Bool)
deriving DecidableEq

/-- The power `2^e` for an integer exponent. -/
def pow2 (e : ℤ) : ℚ :=
  if 0 ≤ e then ((2 ^ e.toNat : ℕ) : ℚ) else 1 / ((2 ^ (-e).toNat : ℕ) : ℚ)

/-- Bisection for the binary exponent: the largest `k` in `[lo, lo + 2^n)` with
`2^k ≤ a`, and `lo` when there is none. -/
def searchLog2 (a : ℚ) : ℕ → ℤ → ℤ
  | 0, lo => lo
  | n + 1, lo =>
      if pow2 (lo + 2 ^ n) ≤ a then searchLog2 a n (lo + 2 ^ n) else searchLog2 a n lo

/-- The binary exponent `⌊log₂ a⌋` of a positive `a`, clamped to `[-2048, 2047]`
(beyond the binary64 range on both sides). -/
def floorLog2 (a : ℚ) : ℤ := searchLog2 a 12 (-2048)

/-- Exponent of the last place of the binary64 values around `a`: 52 below the
binary exponent for normal values, `-1074` for subnormal ones. -/
def ulpExponent (a : ℚ) : ℤ := max (floorLog2 a) (-1022) - 52

/-- The nearest integer, ties to the even one. -/
def roundHalfEven (x : ℚ) : ℤ :=
  let f := Rat.floor x
  let d := x - f
  if d < 1 / 2 then f else if 1 / 2 < d then f + 1 else if f % 2 = 0 then f else f + 1

/-- The multiple of `2^(ulpExponent |q|)` nearest to `q`, ties to even: the binary64
value nearest to `q` when that is finite. -/
def nearestDouble (q : ℚ) : ℚ :=
  let e := ulpExponent |q|
  let r := (roundHalfEven (|q| / pow2 e) : ℚ) * pow2 e
  if q < 0 then -r else r

/-- Rounding of an exact result to binary64: the nearest value, ties to even, and an
infinity when that value would be `2^1024` or more. -/
def toDouble (q : ℚ) : Num :=
  if pow2 1024 ≤ |nearestDouble q| then .inf (decide (q < 0)) else .fin (nearestDouble q)

namespace Num

/-- Addition `a + b` of JavaScript numbers. -/
def add : Num → Num → Num
  | fin x, fin y => toDouble (x + y)
  | nan, _ => nan
  | _, nan => nan
  | inf s, inf t => if s = t then inf s else nan
  | inf s, fin _ => inf s
  | fin _, inf t => inf t

/-- Subtraction `a - b` of JavaScript numbers. -/
def sub : Num → Num → Num
  | fin x, fin y => toDouble (x - y)
  | nan, _ => nan
  | _, nan => nan
  | inf s, inf t => if s = t then nan else inf s
  | inf s, fin _ => inf s
  | fin _, inf t => inf (!t)

/-- Multiplication `a * b` of JavaScript numbers. -/
def mul : Num → Num → Num
  | fin x, fin y => toDouble (x * y)
  | nan, _ => nan
  | _, nan => nan
  | inf s, inf t => inf (s != t)
  | inf s, fin y => if y = 0 then nan else inf (s != decide (y < 0))
  | fin x, inf t => if x = 0 then nan else inf (t != decide (x < 0))

/-- Division `a / b` of JavaScript numbers (division by the single zero gives an
infinity of the sign of the dividend, `0 / 0` gives `NaN`). -/
def div : Num → Num → Num
  | fin x, fin y =>
      if y = 0 then (if x = 0 then nan else inf (decide (x < 0))) else toDouble (x / y)
  | nan, _ => nan
  | _, nan => nan
  | inf _, inf _ => nan
  | inf s, fin y => inf (s != decide (y < 0))
  | fin _, inf _ => fin 0

/-- The comparison `a < b` of JavaScript numbers. -/
def lt : Num → Num → Bool
  | fin x, fin y => decide (x < y)
  | nan, _ => false
  | _, nan => false
  | inf s, inf t => s && !t
  | inf s, fin _ => s
  | fin _, inf t => !t

/-- A finite number above zero. -/
def posFinite : Num → Bool
  | fin q => decide (0 < q)
  | _ => false

end Num

/-- A decimal literal of the source: the binary64 value nearest to it. -/
def lit (q : ℚ) : Num := toDouble q

/-- The constant `Math.PI`, the binary64 value nearest to π. -/
def mathPI : Num := toDouble (3141592653589793238462643 / 10 ^ 24)

/-- Values that occur in price slots, in backend bodies and in property lookups:
`obj` is a function or a plain object; a string comes with the number ToNumber
converts it to (`NaN` when it is not numeric), and so does an array. -/
inductive Val where
  | null
  | undefined
  | num (n : Num)
  | obj
  | str (text : String) (asNumber : Num)
  | bool (b : Bool)
  | arr (asNumber : Num)
deriving DecidableEq

/-- The abstract operation ToNumber, applied by the arithmetic operators. -/
def toNumber : Val → Num
  | .null => .fin 0
  | .undefined => .nan
  | .num n => n
  | .obj => .nan
  | .str _ n => n
  | .bool b => .fin (if b then 1 else 0)
  | .arr n => n

/-- Truthiness, as used by the operators `||` and `!`. -/
def truthy : Val → Bool
  | .null => false
  | .undefined => false
  | .num (.fin q) => decide (q ≠ 0)
  | .num .nan => false
  | .num (.inf _) => true
  | .obj => true
  | .str text _ => decide (text ≠ "")
  | .bool b => b
  | .arr _ => true

/-- The expression `a || b`. -/
def orElse (a b : Val) : Val := if truthy a then a else b

/-- Result of `x.toFixed(2)`: the string it returns, kept structured.
`dec neg n` is the decimal string of `n` hundredths with a leading minus sign when
`neg`; `big q` is the exponent form used for magnitudes from `10^21` on. -/
inductive Fixed where
  | nan
  | inf (neg : Bool)
  | dec (neg : Bool) (hundredths : ℕ)
  | big (q : ℚ)
deriving DecidableEq

/-- The integer `n` for which `n / 100 - x` is as close to zero as possible, the
larger one on a tie, for `x = |q|`, the exact value of the number. -/
def roundHundredths (q : ℚ) : ℕ := (Rat.floor (|q| * 100 + 1 / 2)).toNat

/-- Number.prototype.toFixed with two fraction digits. -/
def toFixed2 : Num → Fixed
  | .nan => .nan
  | .inf s => .inf s
  | .fin q => if (10 : ℚ) ^ 21 ≤ |q| then .big q else .dec (decide (q < 0)) (roundHundredths q)

/-- The function `parseFloat` on a `toFixed(2)` string: the binary64 value nearest to
the decimal it spells; the exponent form of a number reads back as that number. -/
def parseFloat : Fixed → Num
  | .nan => .nan
  | .inf s => .inf s
  | .dec neg n => toDouble (if neg then -((n : ℚ) / 100) else (n : ℚ) / 100)
  | .big q => .fin q

/-- The comparison `s >= 0` for a `toFixed(2)` string `s` (the string `-0.00`
converts to zero and passes). -/
def Fixed.geZero : Fixed → Bool
  | .nan => false
  | .inf s => !s
  | .dec neg n => !neg || n == 0
  | .big q => decide (0 ≤ q)

/-- JavaScript array write `xs[i] = v`: past the end the array grows and the holes
read as `undefined`. -/
def jsSet (xs : List Val) (i : ℕ) (v : Val) : List Val :=
  if i < xs.length then xs.set i v
  else xs ++ List.replicate (i - xs.length) Val.undefined ++ [v]

/-- JavaScript array read `xs[i]`: `undefined` outside the array. -/
def jsGet (xs : List Val) (i : ℕ) : Val := xs.getD i Val.undefined

/-- The functions of `Math` the script calls and the operator `**`; the language
leaves their results to the implementation. -/
structure MathEnv where
  exp : Num → Num
  sqrt : Num → Num
  sin : Num → Num
  cos : Num → Num
  log : Num → Num
  pow : Num → Num → Num

/-! ## Session state -/

/-- A price series: `dates` and `prices` arrays (`history` and `projection`). -/
structure Series where
  dates : List ℤ
  prices : List Val
deriving DecidableEq

/-- The record `state.data`. -/
structure Data where
  history : Series
  projection : Series
  currentDay : ℕ
  color : String
  lastPrice : Val
deriving DecidableEq

/-- Text of a percentage element: the sign marker (also the CSS class, `positive`
when `plus`) and the `toFixed(2)` string. -/
structure ChangeText where
  plus : Bool
  value : Fixed
deriving DecidableEq

/-- One entry of the news list built by `addNewsEvent`. -/
structure NewsItem where
  positive : Bool
  date : Option ℤ
  text : String
  price : Fixed
  shockPlus : Bool
  shockPct : Fixed
deriving DecidableEq

/-- The page elements the script writes (`state.ui` and the optional `priceChange`
element); `none` is the content the page came with. -/
structure UI where
  loading : Bool
  errorText : Option String
  errorShown : Bool
  newsEvents : List NewsItem
  currentPrice : Option Fixed
  dayCounter : Option String
  dailyChange : Option ChangeText
  hasPriceChange : Bool
  priceChange : Option ChangeText
deriving DecidableEq

/-- A request sent to the backend. -/
inductive Request where
  | probe
  | stock (symbol : String)
  | nextDay (current_price : Val)
deriving DecidableEq

/-- The object `loadStock` assigns to the undeclared variable `stockData`. -/
structure StockData where
  history : Series
  projection : Series
  currentDay : ℕ
  lastRealPrice : Val
  isRealData : Bool
deriving DecidableEq

/-- The whole session: `state.data`, the page, the requests sent so far and the
global `stockData` (absent until assigned). -/
structure World where
  data : Data
  ui : UI
  requests : List Request
  stockData : Option StockData
deriving DecidableEq

/-- An exception value. -/
inductive JSError where
  | typeError
  | referenceError (name : String)
  | error (message : String)
  | request (message : String)
deriving DecidableEq

/-- The `message` of an exception (the text of a TypeError depends on the engine
and is left generic). -/
def JSError.message : JSError → String
  | .typeError => "TypeError"
  | .referenceError name => name ++ " is not defined"
  | .error m => m
  | .request m => m

/-- How a call ends: normally, or by throwing, in both cases with the state reached. -/
inductive Completion where
  | normal (w : World)
  | throw (e : JSError) (w : World)
deriving DecidableEq

/-- The state a completion carries. -/
def Completion.world : Completion → World
  | .normal w => w
  | .throw _ w => w

/-- Whether a completion is a throw. -/
def Completion.isThrow : Completion → Bool
  | .normal _ => false
  | .throw _ _ => true

/-- Sequencing: run `f` after a normal completion, propagate a throw. -/
def Completion.andThen (c : Completion) (f : World → Completion) : Completion :=
  match c with
  | .normal w => f w
  | .throw e w => .throw e w

/-- The value of `state` when the script is loaded (lines 7-25). -/
def initialData : Data :=
  { history := ⟨[], []⟩, projection := ⟨[], []⟩, currentDay := 0, color := "#3b82f6",
    lastPrice := .num (.fin 0) }

/-! ## Helpers (lines 383-407) -/

/-- Source function `getCurrentPrice`. -/
def getCurrentPrice (d : Data) : Val :=
  if d.currentDay > 0 then jsGet d.projection.prices (d.currentDay - 1) else d.lastPrice

/-- Source function `showLoading`. -/
def showLoading (isShown : Bool) (w : World) : World :=
  { w with ui.loading := isShown }

/-- Source function `showError` (the timer that hides the message after 5 s is not
modelled). -/
def showError (message : String) (w : World) : World :=
  { w with ui.errorText := some message, ui.errorShown := true }

/-- Source function `clearError`. -/
def clearError (w : World) : World :=
  { w with ui.errorShown := false }

/-- Source function `updateChart`: rebuilds the chart from the state; rendering only. -/
def updateChart (w : World) : World := w

/-! ## Derived view (lines 277-298) -/

/-- The four constants computed at the top of `updateUI`. -/
structure DerivedView where
  currentPrice : Val
  prevPrice : Val
  dailyChange : Fixed
  totalChange : Fixed
deriving DecidableEq

/-- The percentage `((a - b) / b * 100).toFixed(2)`, each operation in binary64. -/
def pctChange (a b : Val) : Fixed :=
  toFixed2 (Num.mul (Num.div (Num.sub (toNumber a) (toNumber b)) (toNumber b)) (.fin 100))

/-- The value of the expression `(a - b) / b * 100` for numbers `a` and `b`: the
subtraction, the division and the multiplication each round to binary64. -/
def percentOf (a b : ℚ) : Num :=
  Num.mul (Num.div (Num.sub (.fin a) (.fin b)) (.fin b)) (.fin 100)

/-- Lines 278-286 of `updateUI`. -/
def derivedView (d : Data) : DerivedView :=
  let currentPrice := getCurrentPrice d
  let prevPrice :=
    if d.currentDay > 0 then
      (if d.currentDay > 1 then jsGet d.projection.prices (d.currentDay - 2) else d.lastPrice)
    else d.lastPrice
  { currentPrice := currentPrice
    prevPrice := prevPrice
    dailyChange := pctChange currentPrice prevPrice
    totalChange := pctChange currentPrice d.lastPrice }

/-- The text of the day counter. -/
def dayLabel (day : ℕ) : String := "Day " ++ toString day ++ "/365"

/-- Source function `updateUI`. The call `currentPrice.toFixed(2)` throws a TypeError
when the current price is not a number; nothing has been written at that point. -/
def updateUI (w : World) : Completion :=
  let v := derivedView w.data
  match v.currentPrice with
  | .num n =>
      let change : ChangeText := ⟨v.dailyChange.geZero, v.dailyChange⟩
      .normal { w with
        ui.currentPrice := some (toFixed2 n)
        ui.dayCounter := some (dayLabel w.data.currentDay)
        ui.dailyChange := some change
        ui.priceChange := if w.ui.hasPriceChange then some change else w.ui.priceChange }
  | _ => .throw .typeError w

/-! ## News events (lines 301-328) -/

/-- The canned phrases of `newsTypes`. -/
def newsTypes (positive : Bool) : List String :=
  if positive then
    ["Positive earnings report", "New product launch", "Analyst upgrade", "Market rally"]
  else
    ["Earnings miss", "Regulatory concerns", "CEO resignation", "Market correction"]

/-- The comparison `x > 0` after ToNumber. -/
def gtZero (v : Val) : Bool :=
  match toNumber v with
  | .fin q => decide (0 < q)
  | .nan => false
  | .inf s => !s

/-- The element `phrases[Math.floor(draw * phrases.length)]`, as the template prints
it (`undefined` when there is no such element). -/
def pickPhrase (phrases : List String) (draw : ℚ) : String :=
  match Num.mul (.fin draw) (.fin (phrases.length : ℚ)) with
  | .fin x =>
      match Rat.floor x with
      | Int.ofNat k => phrases.getD k "undefined"
      | Int.negSucc _ => "undefined"
  | _ => "undefined"

/-- Source function `addNewsEvent`; `draw` is its `Math.random()` value. The call
`price.toFixed(2)` throws a TypeError when `price` is not a number, before the list
is touched. -/
def addNewsEvent (draw : ℚ) (price shock : Val) (w : World) : Completion :=
  let positive := gtZero shock
  let eventText := pickPhrase (newsTypes positive) draw
  let date : Option ℤ :=
    if w.data.currentDay = 0 then none else w.data.projection.dates.get? (w.data.currentDay - 1)
  match price with
  | .num n =>
      let item : NewsItem :=
        { positive := positive, date := date, text := eventText, price := toFixed2 n,
          shockPlus := positive,
          shockPct := toFixed2 (Num.mul (toNumber shock) (.fin 100)) }
      .normal { w with ui.newsEvents := item :: w.ui.newsEvents }
  | _ => .throw .typeError w

/-! ## Simulation (lines 115-181) -/

/-- What one call of `simulateDayLocally` draws: `u` and `v`, the values with which
the two loops of `gaussianRandom` exit (each the first `Math.random()` value that is
not zero), the `Math.random()` compared with 0.15 and the one used inside
`addNewsEvent`. -/
structure LocalDraws where
  u : ℚ
  v : ℚ
  news : ℚ
  pick : ℚ

/-- Source function `gaussianRandom` (lines 409-414), the Box-Muller transform of
the two draws its loops accepted:
`Math.sqrt(-2.0 * Math.log(u)) * Math.cos(2.0 * Math.PI * v)`. -/
def gaussianRandom (M : MathEnv) (u v : ℚ) : Num :=
  Num.mul (M.sqrt (Num.mul (.fin (-2)) (M.log (.fin u))))
    (M.cos (Num.mul (Num.mul (.fin 2) mathPI) (.fin v)))

/-- The value of `gaussianRandom()` in a local step. -/
def LocalDraws.gauss (M : MathEnv) (dr : LocalDraws) : Num := gaussianRandom M dr.u dr.v

/-- Body of a resolved next-day response: the properties `new_price` and `shock`
of `response.data` (`undefined` when absent). -/
structure SimBody where
  new_price : Val
  shock : Val

/-- Outcome of the POST to the next-day endpoint: the promise rejects (network
error, timeout, status outside 2xx), or resolves with `response.data` (`none` when
the body is `null`, so that reading a property of it throws). -/
inductive PostResult where
  | rejected (message : String)
  | resolved (data : Option SimBody)

/-- Everything one call of `simulateNextDay` consumes. -/
structure StepInput where
  post : PostResult
  news : ℚ
  pick : ℚ
  fallback : LocalDraws

/-- The constant `dt` of line 152, `1/252`. -/
def stepDt : Num := Num.div (.fin 1) (.fin 252)

/-- The constant `mu` of line 153, `0.1`. -/
def stepMu : Num := lit (1 / 10)

/-- The constant `sigma` of line 154, `0.2`. -/
def stepSigma : Num := lit (2 / 10)

/-- The constant `shock` of line 155, `sigma * Math.sqrt(dt) * gaussianRandom()`;
`gauss` is the value of `gaussianRandom()`. -/
def localShock (M : MathEnv) (gauss : Num) : Num :=
  Num.mul (Num.mul stepSigma (M.sqrt stepDt)) gauss

/-- The factor `Math.exp((mu - 0.5*sigma**2)*dt + shock)` of line 156. -/
def localFactor (M : MathEnv) (gauss : Num) : Num :=
  M.exp (Num.add
    (Num.mul (Num.sub stepMu (Num.mul (.fin (1 / 2)) (M.pow stepSigma (.fin 2)))) stepDt)
    (localShock M gauss))

/-- The constant `newPrice` of line 156: the current price times the factor. -/
def localNewPrice (M : MathEnv) (gauss : Num) (current : Val) : Num :=
  Num.mul (toNumber current) (localFactor M gauss)

/-- Source function `simulateDayLocally`. -/
def simulateDayLocally (M : MathEnv) (dr : LocalDraws) (w : World) : Completion :=
  if w.data.currentDay ≥ 365 then .normal w
  else
    let shock := localShock M (dr.gauss M)
    let newPrice := localNewPrice M (dr.gauss M) (getCurrentPrice w.data)
    let w1 : World :=
      { w with
        data.projection.prices :=
          jsSet w.data.projection.prices w.data.currentDay (.num (parseFloat (toFixed2 newPrice)))
        data.currentDay := w.data.currentDay + 1 }
    let afterNews :=
      if Num.lt (.fin dr.news) (lit (15 / 100)) then
        addNewsEvent dr.pick (.num newPrice) (.num shock) w1
      else .normal w1
    afterNews.andThen fun w2 => updateUI (updateChart w2)

/-- The `try` block of `simulateNextDay` (lines 124-139). -/
def simulateNextDayTry (inp : StepInput) (w : World) : Completion :=
  let currentPrice := getCurrentPrice w.data
  let w1 : World := { w with requests := w.requests ++ [Request.nextDay currentPrice] }
  match inp.post with
  | .rejected message => .throw (.request message) w1
  | .resolved none => .throw .typeError w1
  | .resolved (some body) =>
      let w2 : World :=
        { w1 with
          data.projection.prices :=
            jsSet w1.data.projection.prices w1.data.currentDay body.new_price
          data.currentDay := w1.data.currentDay + 1 }
      let afterNews :=
        if Num.lt (.fin inp.news) (lit (15 / 100)) then
          addNewsEvent inp.pick body.new_price body.shock w2
        else .normal w2
      afterNews.andThen fun w3 => updateUI (updateChart w3)

/-- Source function `simulateNextDay`: the terminal guard, then `try`, `catch`
(which runs `simulateDayLocally` on the state the `try` block left) and `finally`. -/
def simulateNextDay (M : MathEnv) (inp : StepInput) (w : World) : Completion :=
  if w.data.currentDay ≥ 365 then
    .normal (showError "Reached end of 1-year projection" w)
  else
    let afterCatch :=
      match simulateNextDayTry inp (showLoading true w) with
      | .normal w1 => Completion.normal w1
      | .throw _ w1 => simulateDayLocally M inp.fallback w1
    match afterCatch with
    | .normal w2 => .normal (showLoading false w2)
    | .throw e w2 => .throw e (showLoading false w2)

/-- A finished `fastForward` run: the final state, the number of `simulateNextDay`
calls made, and whether a call rejected (which would end the run). -/
structure Run where
  world : World
  calls : ℕ
  rejected : Bool

/-- The closure `simulate` of `fastForward` (lines 173-178), with `remaining` steps
to go; call number `k` consumes `inputs k`. Each call is awaited before the next
one is scheduled, so the calls run one after another. -/
def simulate (M : MathEnv) (inputs : ℕ → StepInput) : ℕ → ℕ → World → Run
  | 0, calls, w => ⟨w, calls, false⟩
  | remaining + 1, calls, w =>
      match simulateNextDay M (inputs calls) w with
      | .normal w1 => simulate M inputs remaining (calls + 1) w1
      | .throw _ w1 => ⟨w1, calls + 1, true⟩

/-- Source function `fastForward` for an integer argument. -/
def fastForward (M : MathEnv) (inputs : ℕ → StepInput) (days : ℤ) (w : World) : Run :=
  let remaining : ℤ := min days (365 - (w.data.currentDay : ℤ))
  if remaining ≤ 0 then ⟨w, 0, false⟩
  else simulate M inputs remaining.toNat 0 w

/-! ## Demo data (lines 331-380) -/

/-- The clock of the page in a zone with a fixed offset: the instant `new Date()`
returns, in milliseconds since the epoch, and the offset of local time from UTC in
minutes. Every `new Date()` of one load reads the same instant. Zones with
daylight-saving changes, where `setDate` and adding 24 hours differ, are not
covered. -/
structure Clock where
  now : ℤ
  offsetMinutes : ℤ

/-- Milliseconds in a day, the constant `86400000`. -/
def msPerDay : ℤ := 86400000

/-- Method `getDay()`: the day of the week in local time, `0` for Sunday. -/
def getDay (c : Clock) (t : ℤ) : ℤ := ((t + c.offsetMinutes * 60000) / msPerDay + 4) % 7

/-- The date part of `toISOString()`: the UTC calendar date, as a day number. -/
def isoDate (t : ℤ) : ℤ := t / msPerDay

/-- Day of the week of a calendar date given as a day number, `0` for Sunday. -/
def weekdayOf (day : ℤ) : ℤ := (day + 4) % 7

/-- Names every object inherits from `Object.prototype`. -/
def objectPrototypeKeys : List String :=
  ["constructor", "hasOwnProperty", "isPrototypeOf", "propertyIsEnumerable",
   "toLocaleString", "toString", "valueOf", "__proto__", "__defineGetter__",
   "__defineSetter__", "__lookupGetter__", "__lookupSetter__"]

/-- The property read on the object literal of lines 334-336: an own property, else
an inherited one (a function or object), else `undefined`. -/
def basePriceTable (symbol : String) : Val :=
  if symbol = "AAPL" then .num (.fin 175)
  else if symbol = "TSLA" then .num (.fin 250)
  else if symbol = "SPY" then .num (.fin 450)
  else if symbol ∈ objectPrototypeKeys then .obj
  else .undefined

/-- The constant `basePrice` of `loadDemoData`. -/
def basePrice (symbol : String) : Val := orElse (basePriceTable symbol) (.num (.fin 100))

/-- The first loop of `loadDemoData`: for each `i` below 365 whose local day is not a
weekend, the pushed date and the pushed (unrounded) price; `rand i` is the
`Math.random()` drawn in iteration `i`. -/
def historyRows (M : MathEnv) (c : Clock) (rand : ℕ → ℚ) (base : Val) : List (ℤ × Num) :=
  (List.range 365).filterMap fun (i : ℕ) =>
    let date := c.now + ((i : ℤ) - 365) * msPerDay
    if getDay c date ≠ 0 ∧ getDay c date ≠ 6 then
      some (isoDate date,
        Num.mul (toNumber base)
          (Num.add
            (Num.add
              (Num.add (.fin 1) (Num.mul (lit (5 / 1000)) (.fin (i : ℚ))))
              (Num.mul (lit (2 / 100)) (M.sin (Num.div (.fin (i : ℚ)) (.fin 30)))))
            (Num.mul (lit (2 / 100)) (.fin (rand i)))))
    else none

/-- The inner `while` of the second loop: step a day at a time while the local day
is a weekend. -/
def skipWeekend (c : Clock) (t : ℤ) : ℤ :=
  if getDay c t = 0 ∨ getDay c t = 6 then skipWeekend c (t + msPerDay) else t
termination_by (if getDay c t = 6 then 2 else if getDay c t = 0 then 1 else 0 : ℕ)
decreasing_by
  all_goals simp only [getDay, msPerDay] at *
  all_goals split_ifs <;> omega

/-- The second loop of `loadDemoData`, with `n` iterations to go from `currentDate`. -/
def projectionDates (c : Clock) : ℕ → ℤ → List ℤ
  | 0, _ => []
  | n + 1, currentDate =>
      let next := skipWeekend c (currentDate + msPerDay)
      isoDate next :: projectionDates c n next

/-- The record `loadDemoData` assigns to `state.data` (lines 364-376). -/
def demoData (M : MathEnv) (c : Clock) (rand : ℕ → ℚ) (symbol : String) : Data :=
  let rows := historyRows M c rand (basePrice symbol)
  let historyPrices := rows.map Prod.snd
  { history :=
      { dates := rows.map Prod.fst
        prices := historyPrices.map fun p => Val.num (parseFloat (toFixed2 p)) }
    projection :=
      { dates := projectionDates c 365 c.now
        prices := List.replicate 365 Val.null }
    currentDay := 0
    color := "#3b82f6"
    lastPrice := jsGet (historyPrices.map Val.num) (historyPrices.length - 1) }

/-- Source function `loadDemoData`. -/
def loadDemoData (M : MathEnv) (c : Clock) (rand : ℕ → ℚ) (symbol : String) (w : World) :
    Completion :=
  updateUI (updateChart { w with data := demoData M c rand symbol })

/-! ## Loading a stock (lines 62-112) -/

/-- The `history` object of a stock payload; `prices` is `none` when the property is
missing. -/
structure HistoryBody where
  dates : List ℤ
  prices : Option (List Val)

/-- The body of a resolved `GET /stock/{symbol}`; `history` is `none` when missing. -/
structure StockBody where
  history : Option HistoryBody
  status : String

/-- Outcome of the stock request: rejected, or resolved with `response.data` (`none`
when the body is `null`). -/
inductive GetResult where
  | rejected (message : String)
  | resolved (data : Option StockBody)

/-- What one call of `loadStock` consumes: the selected symbol, the outcome of the
probe (`some message` when it rejects), the outcome of the stock request, and what
`loadDemoData` needs. -/
structure LoadInput where
  symbol : String
  probe : Option String
  stock : GetResult
  clock : Clock
  rand : ℕ → ℚ

/-- Identifiers `loadStock` calls that `script.js` does not define; `none` means
the identifier is unbound, so that calling it throws a ReferenceError. -/
structure Globals where
  generateProjectionDates : Option (ℕ → List ℤ)
  updateStats : Option (World → Completion)

/-- The script as it stands: neither identifier is defined. -/
def scriptGlobals : Globals := ⟨none, none⟩

/-- The `try` block of `loadStock` (lines 70-103). -/
def loadStockTry (G : Globals) (inp : LoadInput) (w : World) : Completion :=
  let w1 : World := { w with requests := w.requests ++ [Request.probe] }
  match inp.probe with
  | some message => .throw (.request message) w1
  | none =>
    let w2 : World := { w1 with requests := w1.requests ++ [Request.stock inp.symbol] }
    match inp.stock with
    | .rejected message => .throw (.request message) w2
    | .resolved none => .throw .typeError w2
    | .resolved (some body) =>
      match body.history with
      | none => .throw (.error "Invalid data format from server") w2
      | some h =>
        match h.prices with
        | none => .throw (.error "Invalid data format from server") w2
        | some prices =>
          match G.generateProjectionDates with
          | none => .throw (.referenceError "generateProjectionDates") w2
          | some generate =>
            let w3 : World :=
              { w2 with
                stockData := some
                  { history := ⟨h.dates, prices⟩
                    projection := ⟨generate 365, List.replicate 365 Val.null⟩
                    currentDay := 0
                    lastRealPrice := jsGet prices (prices.length - 1)
                    isRealData := decide (body.status = "real_data") } }
            -- the warning of lines 100-103 only writes to the console
            match G.updateStats with
            | none => .throw (.referenceError "updateStats") (updateChart w3)
            | some updateStats => updateStats (updateChart w3)

/-- Source function `loadStock`: `try`, then `catch` (message and `loadDemoData`),
then `finally`. -/
def loadStock (G : Globals) (M : MathEnv) (inp : LoadInput) (w : World) : Completion :=
  let afterCatch :=
    match loadStockTry G inp (clearError (showLoading true w)) with
    | .normal w1 => Completion.normal w1
    | .throw e w1 =>
        loadDemoData M inp.clock inp.rand inp.symbol
          (showError ("Failed to load: " ++ e.message) w1)
  match afterCatch with
  | .normal w2 => .normal (showLoading false w2)
  | .throw e w2 => .throw e (showLoading false w2)

/-! ## Data-level summaries used in the statements -/

/-- Lines 130-131 and 158-159: write `v` at index `currentDay`, then increment. -/
def storeNext (d : Data) (v : Val) : Data :=
  { d with
    projection.prices := jsSet d.projection.prices d.currentDay v
    currentDay := d.currentDay + 1 }

/-- The price `simulateDayLocally` stores: line 158 applied to line 156. -/
def localPrice (M : MathEnv) (gauss : Num) (current : Val) : Val :=
  .num (parseFloat (toFixed2 (localNewPrice M gauss current)))

/-- The effect of one `simulateNextDay` call on `state.data` below the horizon, by
backend outcome: a local step when the request fails or the body is `null`; the
backend price when `new_price` is a number; otherwise the non-numeric `new_price`
is stored, the display code throws, and the `catch` block takes a local step from
the state already advanced. -/
def nextDayData (M : MathEnv) (inp : StepInput) (d : Data) : Data :=
  match inp.post with
  | .rejected _ => storeNext d (localPrice M (inp.fallback.gauss M) (getCurrentPrice d))
  | .resolved none => storeNext d (localPrice M (inp.fallback.gauss M) (getCurrentPrice d))
  | .resolved (some body) =>
      match body.new_price with
      | .num n => storeNext d (.num n)
      | v =>
          if (storeNext d v).currentDay ≥ 365 then storeNext d v
          else storeNext (storeNext d v) (localPrice M (inp.fallback.gauss M) v)

/-! ## Sample inputs -/

/-- A function of `Math` given by a rational expression: its value rounded to
binary64 on a finite argument, `NaN` elsewhere. -/
def roundedMath (f : ℚ → ℚ) : Num → Num
  | .fin q => toDouble (f q)
  | _ => .nan

/-- A sample `Math`, built from the first terms of the usual series. -/
def sampleMath : MathEnv :=
  { exp := roundedMath fun x => 1 + x + x ^ 2 / 2
    sqrt := roundedMath fun x => (x + 1) / 2
    sin := roundedMath fun x => x - x ^ 3 / 6
    cos := roundedMath fun x => 1 - x ^ 2 / 2
    log := roundedMath fun x => x - 1
    pow := fun x _ => Num.mul x x }

/-- A page on which nothing has been written yet. -/
def blankUI : UI :=
  { loading := false, errorText := none, errorShown := false, newsEvents := [],
    currentPrice := none, dayCounter := none, dailyChange := none, hasPriceChange := false,
    priceChange := none }

/-- The session when the script has just been loaded. -/
def initialWorld : World := ⟨initialData, blankUI, [], none⟩

/-- A freshly loaded session: day 0, 365 unset projection entries, last price `last`. -/
def freshWorld (last : ℚ) : World :=
  { data :=
      { history := ⟨[], []⟩, projection := ⟨[], List.replicate 365 Val.null⟩, currentDay := 0,
        color := "#3b82f6", lastPrice := .num (.fin last) }
    ui := blankUI, requests := [], stockData := none }

/-- A session at day `day` whose projection array is `prices`. -/
def worldAt (last : Val) (day : ℕ) (prices : List Val) : World :=
  { data :=
      { history := ⟨[], []⟩, projection := ⟨[], prices⟩, currentDay := day,
        color := "#3b82f6", lastPrice := last }
    ui := blankUI, requests := [], stockData := none }

/-- A session whose projection is complete: day 365, every entry filled. -/
def doneWorld : World := worldAt (.num (.fin 100)) 365 (List.replicate 365 (.num (.fin 100)))

/-- A session at day 10: last price 175, ten projected prices of 180, 355 unset entries. -/
def dayTenWorld : World :=
  worldAt (.num (.fin 175)) 10 (List.replicate 10 (.num (.fin 180)) ++ List.replicate 355 .null)

/-- Draws of a local step with no news event. -/
def quietDraws : LocalDraws := { u := 1 / 2, v := 1 / 4, news := 1 / 2, pick := 0 }

/-- A call whose request is rejected. -/
def rejectedInput : StepInput := ⟨.rejected "Network Error", 1 / 2, 0, quietDraws⟩

/-- A call answered with a 2xx body that has no `new_price` (the body `\x7b\x7d`). -/
def emptyBodyInput : StepInput :=
  ⟨.resolved (some ⟨.undefined, .undefined⟩), 1 / 2, 0, quietDraws⟩

/-- The state after the first `k` of a series of `simulateNextDay` calls made one
after another; call number `i` consumes `inputs i`. -/
def runCalls (M : MathEnv) (inputs : ℕ → StepInput) : ℕ → World → World
  | 0, w => w
  | k + 1, w => (simulateNextDay M (inputs k) (runCalls M inputs k w)).world

/-- A backend outcome the script handles as intended: a rejected request, a `null`
body, or a body whose `new_price` is a number. -/
def WellFormed (inp : StepInput) : Prop :=
  match inp.post with
  | .rejected _ => True
  | .resolved none => True
  | .resolved (some body) => ∃ n, body.new_price = .num n

/-- The projection invariant at day `k`: 365 entries, a number at every index below
`k`, `null` from `k` on. -/
def FilledTo (k : ℕ) (d : Data) : Prop :=
  d.currentDay = k ∧ d.projection.prices.length = 365 ∧
  ∀ i, i < 365 →
    (i < k → ∃ n, jsGet d.projection.prices i = .num n) ∧
    (k ≤ i → jsGet d.projection.prices i = .null)

/-- A clock reading 2024-01-01T23:30:00Z in a zone one hour ahead of UTC: local time
is Tuesday 2024-01-02, 00:30. -/
def lateClock : Clock := ⟨19723 * 86400000 + 84600000, 60⟩

/-- The same instant read in UTC. -/
def utcClock : Clock := ⟨19723 * 86400000 + 84600000, 0⟩

/-- A load of AAPL answered by a reachable backend with a well-formed payload:
one historical date with price 190, status `real_data`. -/
def goodLoad : LoadInput :=
  { symbol := "AAPL", probe := none,
    stock := .resolved (some ⟨some ⟨[19722], some [.num (.fin 190)]⟩, "real_data"⟩),
    clock := utcClock, rand := fun _ => 1 / 2 }

/-- A load of TSLA whose probe fails. -/
def failedLoad : LoadInput :=
  { symbol := "TSLA", probe := some "Network Error", stock := .rejected "Network Error",
    clock := utcClock, rand := fun _ => 1 / 2 }


/-- A session at day 0 whose last price is `2^-10`, about a tenth of a cent. -/
def tinyWorld : World := worldAt (.num (.fin (1 / 1024))) 0 (List.replicate 365 .null)

/-- A session at day 0 whose last price is the largest finite binary64 value. -/
def hugeWorld : World :=
  worldAt (.num (.fin ((2 ^ 1024 - 2 ^ 971 : ℕ) : ℚ))) 0 (List.replicate 365 .null)

/-- Draws of a local step with a positive shock and no news event. -/
def risingDraws : LocalDraws := { u := 1 / 2, v := 1 / 1024, news := 1 / 2, pick := 0 }

/-! ## Basic facts -/

/-! ### Arrays and display code -/

theorem jsGet_jsSet_same (xs : List Val) (i : ℕ) (v : Val) : jsGet (jsSet xs i v) i = v := by
  unfold jsGet jsSet
  split_ifs with h
  · simp [List.getD_eq_getElem?_getD, h]
  · have hlen : (xs ++ List.replicate (i - xs.length) Val.undefined).length = i := by
      simp; omega
    rw [List.getD_eq_getElem?_getD, List.getElem?_append_right (by omega)]
    simp [hlen]

theorem jsGet_jsSet_of_ne (xs : List Val) (i j : ℕ) (v : Val) (hj : j ≠ i) :
    jsGet (jsSet xs i v) j = jsGet xs j := by
  unfold jsGet jsSet
  split_ifs with h
  · simp [List.getD_eq_getElem?_getD, List.getElem?_set, Ne.symm hj]
  · simp only [List.getD_eq_getElem?_getD, List.append_assoc]
    by_cases hjl : j < xs.length
    · rw [List.getElem?_append_left hjl]
    · rw [List.getElem?_append_right (by omega), List.getElem?_eq_none (by omega : xs.length ≤ j)]
      by_cases hji : j - xs.length < i - xs.length
      · rw [List.getElem?_append_left (by simpa using hji)]
        simp [List.getElem?_replicate, hji]
      · rw [List.getElem?_append_right (by simpa using hji)]
        have : j - xs.length - (List.replicate (i - xs.length) Val.undefined).length ≠ 0 := by
          simp; omega
        rw [List.getElem?_eq_none]
        simp; omega

theorem jsSet_length_of_lt (xs : List Val) (i : ℕ) (v : Val) (h : i < xs.length) :
    (jsSet xs i v).length = xs.length := by
  simp [jsSet, h]

theorem getCurrentPrice_storeNext (d : Data) (v : Val) : getCurrentPrice (storeNext d v) = v := by
  simp [getCurrentPrice, storeNext, jsGet_jsSet_same]

theorem addNewsEvent_num (draw : ℚ) (n : Num) (shock : Val) (w : World) :
    ∃ w1, addNewsEvent draw (.num n) shock w = .normal w1 ∧ w1.data = w.data ∧
      w1.requests = w.requests ∧ w1.stockData = w.stockData :=
  ⟨_, rfl, rfl, rfl, rfl⟩

theorem addNewsEvent_not_num (draw : ℚ) (price shock : Val) (w : World)
    (h : ∀ n, price ≠ .num n) : addNewsEvent draw price shock w = .throw .typeError w := by
  cases price with
  | num n => exact absurd rfl (h n)
  | _ => rfl

theorem updateUI_num (w : World) (n : Num) (h : getCurrentPrice w.data = .num n) :
    ∃ w1, updateUI w = .normal w1 ∧ w1.data = w.data ∧ w1.requests = w.requests ∧
      w1.stockData = w.stockData := by
  simp [updateUI, derivedView, h]

theorem updateUI_not_num (w : World) (h : ∀ n, getCurrentPrice w.data ≠ .num n) :
    updateUI w = .throw .typeError w := by
  cases hc : getCurrentPrice w.data with
  | num n => exact absurd hc (h n)
  | _ => simp [updateUI, derivedView, hc]

/-! ### One local step, one call of `simulateNextDay` -/

theorem simulateDayLocally_of_lt (M : MathEnv) (dr : LocalDraws) (w : World)
    (h : w.data.currentDay < 365) :
    ∃ w1, simulateDayLocally M dr w = .normal w1 ∧
      w1.data = storeNext w.data (localPrice M (dr.gauss M) (getCurrentPrice w.data)) ∧
      w1.requests = w.requests ∧ w1.stockData = w.stockData := by
  have hge : ¬ w.data.currentDay ≥ 365 := by omega
  simp only [simulateDayLocally, hge, if_false, updateChart]
  set w1 : World :=
    { w with
      data.projection.prices :=
        jsSet w.data.projection.prices w.data.currentDay
          (.num (parseFloat (toFixed2 (localNewPrice M (dr.gauss M) (getCurrentPrice w.data)))))
      data.currentDay := w.data.currentDay + 1 } with hw1
  have hdata : w1.data =
      storeNext w.data (localPrice M (dr.gauss M) (getCurrentPrice w.data)) := rfl
  split_ifs with hnews
  · obtain ⟨w2, h2, hd2, hr2, hs2⟩ :=
      addNewsEvent_num dr.pick (localNewPrice M (dr.gauss M) (getCurrentPrice w.data))
        (.num (localShock M (dr.gauss M))) w1
    rw [h2]
    have hcur : getCurrentPrice w2.data = localPrice M (dr.gauss M) (getCurrentPrice w.data) := by
      rw [hd2, hdata, getCurrentPrice_storeNext]
    obtain ⟨w3, h3, hd3, hr3, hs3⟩ := updateUI_num w2 _ hcur
    exact ⟨w3, by simpa [Completion.andThen] using h3, by rw [hd3, hd2, hdata],
      by rw [hr3, hr2], by rw [hs3, hs2]⟩
  · have hcur : getCurrentPrice w1.data = localPrice M (dr.gauss M) (getCurrentPrice w.data) := by
      rw [hdata, getCurrentPrice_storeNext]
    obtain ⟨w3, h3, hd3, hr3, hs3⟩ := updateUI_num w1 _ hcur
    exact ⟨w3, by simpa [Completion.andThen] using h3, by rw [hd3, hdata], hr3, hs3⟩

theorem simulateDayLocally_of_ge (M : MathEnv) (dr : LocalDraws) (w : World)
    (h : 365 ≤ w.data.currentDay) : simulateDayLocally M dr w = .normal w := by
  simp [simulateDayLocally, h]

theorem simulateDayLocally_normal (M : MathEnv) (dr : LocalDraws) (w : World) :
    ∃ w1, simulateDayLocally M dr w = .normal w1 := by
  by_cases h : w.data.currentDay < 365
  · obtain ⟨w1, h1, _⟩ := simulateDayLocally_of_lt M dr w h
    exact ⟨w1, h1⟩
  · exact ⟨w, simulateDayLocally_of_ge M dr w (by omega)⟩

theorem simulateNextDayTry_num (inp : StepInput) (w : World) (n : Num) (shock : Val)
    (hp : inp.post = .resolved (some ⟨.num n, shock⟩)) :
    ∃ w1, simulateNextDayTry inp w = .normal w1 ∧ w1.data = storeNext w.data (.num n) ∧
      w1.requests = w.requests ++ [Request.nextDay (getCurrentPrice w.data)] ∧
      w1.stockData = w.stockData := by
  simp only [simulateNextDayTry, hp, updateChart]
  set w2 : World :=
    { w with
      requests := w.requests ++ [Request.nextDay (getCurrentPrice w.data)]
      data.projection.prices := jsSet w.data.projection.prices w.data.currentDay (.num n)
      data.currentDay := w.data.currentDay + 1 } with hw2
  have hdata : w2.data = storeNext w.data (.num n) := rfl
  split_ifs with hnews
  · obtain ⟨w3, h3, hd3, hr3, hs3⟩ := addNewsEvent_num inp.pick n shock w2
    have hcur : getCurrentPrice w3.data = .num n := by
      rw [hd3, hdata, getCurrentPrice_storeNext]
    obtain ⟨w4, h4, hd4, hr4, hs4⟩ := updateUI_num w3 _ hcur
    refine ⟨w4, ?_, by rw [hd4, hd3, hdata], by rw [hr4, hr3], by rw [hs4, hs3]⟩
    show (addNewsEvent inp.pick (.num n) shock w2).andThen _ = _
    rw [h3]; simpa [Completion.andThen] using h4
  · have hcur : getCurrentPrice w2.data = .num n := by
      rw [hdata, getCurrentPrice_storeNext]
    obtain ⟨w4, h4, hd4, hr4, hs4⟩ := updateUI_num w2 _ hcur
    refine ⟨w4, ?_, by rw [hd4, hdata], hr4, hs4⟩
    simpa [Completion.andThen] using h4

theorem simulateNextDayTry_not_num (inp : StepInput) (w : World) (v shock : Val)
    (hp : inp.post = .resolved (some ⟨v, shock⟩)) (hv : ∀ n, v ≠ .num n) :
    ∃ w1, simulateNextDayTry inp w = .throw .typeError w1 ∧ w1.data = storeNext w.data v ∧
      w1.requests = w.requests ++ [Request.nextDay (getCurrentPrice w.data)] ∧
      w1.stockData = w.stockData := by
  simp only [simulateNextDayTry, hp, updateChart]
  set w2 : World :=
    { w with
      requests := w.requests ++ [Request.nextDay (getCurrentPrice w.data)]
      data.projection.prices := jsSet w.data.projection.prices w.data.currentDay v
      data.currentDay := w.data.currentDay + 1 } with hw2
  have hdata : w2.data = storeNext w.data v := rfl
  split_ifs with hnews
  · refine ⟨w2, ?_, hdata, rfl, rfl⟩
    show (addNewsEvent inp.pick v shock w2).andThen _ = _
    rw [addNewsEvent_not_num _ _ _ _ hv]; rfl
  · refine ⟨w2, ?_, hdata, rfl, rfl⟩
    have hcur : ∀ n, getCurrentPrice w2.data ≠ .num n := by
      intro n; rw [hdata, getCurrentPrice_storeNext]; exact hv n
    simpa [Completion.andThen] using updateUI_not_num w2 hcur

theorem simulateNextDay_of_lt (M : MathEnv) (inp : StepInput) (w : World)
    (h : w.data.currentDay < 365) :
    ∃ w1, simulateNextDay M inp w = .normal w1 ∧ w1.data = nextDayData M inp w.data ∧
      w1.requests = w.requests ++ [Request.nextDay (getCurrentPrice w.data)] ∧
      w1.stockData = w.stockData := by
  have hge : ¬ w.data.currentDay ≥ 365 := by omega
  have hl : (showLoading true w).data = w.data := rfl
  have hlr : (showLoading true w).requests = w.requests := rfl
  have hls : (showLoading true w).stockData = w.stockData := rfl
  simp only [simulateNextDay, hge, if_false]
  cases hp : inp.post with
  | rejected message =>
      set w1 : World :=
        { showLoading true w with
          requests := w.requests ++ [Request.nextDay (getCurrentPrice w.data)] } with hw1
      have htry : simulateNextDayTry inp (showLoading true w) = .throw (.request message) w1 := by
        simp [simulateNextDayTry, hp, hw1, showLoading]
      obtain ⟨w2, h2, hd2, hr2, hs2⟩ := simulateDayLocally_of_lt M inp.fallback w1 h
      rw [htry]; simp only [h2]
      exact ⟨_, rfl, by simpa [showLoading, nextDayData, hp] using hd2,
        by simpa [showLoading] using hr2, by simpa [showLoading] using hs2⟩
  | resolved data =>
      cases data with
      | none =>
          set w1 : World :=
            { showLoading true w with
              requests := w.requests ++ [Request.nextDay (getCurrentPrice w.data)] } with hw1
          have htry : simulateNextDayTry inp (showLoading true w) = .throw .typeError w1 := by
            simp [simulateNextDayTry, hp, hw1, showLoading]
          obtain ⟨w2, h2, hd2, hr2, hs2⟩ := simulateDayLocally_of_lt M inp.fallback w1 h
          rw [htry]; simp only [h2]
          exact ⟨_, rfl, by simpa [showLoading, nextDayData, hp] using hd2,
            by simpa [showLoading] using hr2, by simpa [showLoading] using hs2⟩
      | some body =>
          obtain ⟨v, shock⟩ := body
          by_cases hv : ∃ n, v = .num n
          · obtain ⟨n, rfl⟩ := hv
            obtain ⟨w1, h1, hd1, hr1, hs1⟩ :=
              simulateNextDayTry_num inp (showLoading true w) n shock hp
            rw [h1]
            exact ⟨_, rfl, by simpa [showLoading, nextDayData, hp] using hd1,
              by simpa [showLoading] using hr1, by simpa [showLoading] using hs1⟩
          · have hv2 : ∀ n, v ≠ .num n := fun n hn => hv ⟨n, hn⟩
            obtain ⟨w1, h1, hd1, hr1, hs1⟩ :=
              simulateNextDayTry_not_num inp (showLoading true w) v shock hp hv2
            rw [h1]
            have hnd : nextDayData M inp w.data =
                if (storeNext w.data v).currentDay ≥ 365 then storeNext w.data v
                else storeNext (storeNext w.data v) (localPrice M (inp.fallback.gauss M) v) := by
              cases v with
              | num n => exact absurd rfl (hv2 n)
              | _ => simp only [nextDayData, hp]
            by_cases hend : 365 ≤ w1.data.currentDay
            · simp only [simulateDayLocally_of_ge M inp.fallback w1 hend]
              refine ⟨_, rfl, ?_, by simpa [showLoading] using hr1,
                by simpa [showLoading] using hs1⟩
              rw [hnd, if_pos (by rw [← hl, ← hd1]; exact hend)]
              simpa [showLoading] using hd1
            · obtain ⟨w2, h2, hd2, hr2, hs2⟩ :=
                simulateDayLocally_of_lt M inp.fallback w1 (by omega)
              simp only [h2]
              refine ⟨_, rfl, ?_, by simpa [showLoading, hr1] using hr2,
                by simpa [showLoading, hs1] using hs2⟩
              rw [hnd, if_neg (by rw [← hl, ← hd1]; exact hend)]
              have : getCurrentPrice w1.data = v := by
                rw [hd1, hl, getCurrentPrice_storeNext]
              rw [this, hd1, hl] at hd2
              simpa [showLoading] using hd2

/-! ### Rounding to two decimals -/

theorem roundHundredths_bounds (p : ℚ) (hp : 0 ≤ p) :
    (roundHundredths p : ℚ) ≤ p * 100 + 1 / 2 ∧ p * 100 + 1 / 2 < (roundHundredths p : ℚ) + 1 := by
  unfold roundHundredths
  rw [abs_of_nonneg hp]
  have hnn : (0 : ℤ) ≤ Rat.floor (p * 100 + 1 / 2) := by
    rw [Rat.le_floor]; push_cast; linarith
  have hcast : (((Rat.floor (p * 100 + 1 / 2)).toNat : ℕ) : ℚ) =
      ((Rat.floor (p * 100 + 1 / 2) : ℤ) : ℚ) := by
    have := Int.toNat_of_nonneg hnn
    exact_mod_cast congrArg (fun z : ℤ => (z : ℚ)) this
  rw [hcast]
  constructor
  · exact Rat.le_floor.mp (le_refl _)
  · by_contra hlt
    push_neg at hlt
    have : Rat.floor (p * 100 + 1 / 2) + 1 ≤ Rat.floor (p * 100 + 1 / 2) := by
      rw [Rat.le_floor]; push_cast; exact hlt
    omega

theorem roundHundredths_close (p : ℚ) (hp : 0 ≤ p) :
    |(roundHundredths p : ℚ) / 100 - p| ≤ 1 / 200 := by
  obtain ⟨h1, h2⟩ := roundHundredths_bounds p hp
  rw [abs_le]
  constructor <;> linarith

theorem roundHundredths_pos_iff (p : ℚ) (hp : 0 ≤ p) :
    0 < roundHundredths p ↔ 1 / 200 ≤ p := by
  obtain ⟨h1, h2⟩ := roundHundredths_bounds p hp
  constructor
  · intro h
    have : (1 : ℚ) ≤ (roundHundredths p : ℚ) := by exact_mod_cast h
    linarith
  · intro h
    by_contra hz
    have h0 : roundHundredths p = 0 := by omega
    rw [h0] at h2
    norm_num at h2
    linarith

theorem toFixed2_of_small (q : ℚ) (h0 : 0 ≤ q) (h : q < 10 ^ 21) :
    toFixed2 (.fin q) = .dec false (roundHundredths q) := by
  have h1 : ¬ (10 : ℚ) ^ 21 ≤ |q| := by rw [abs_of_nonneg h0]; exact not_le.mpr h
  have h2 : ¬ q < 0 := not_lt.mpr h0
  simp [toFixed2, h1, h2]

/-! ### The terminal day and `fastForward` -/

theorem nextDayData_day (M : MathEnv) (inp : StepInput) (d : Data) (h : d.currentDay < 365) :
    d.currentDay < (nextDayData M inp d).currentDay ∧ (nextDayData M inp d).currentDay ≤ 365 := by
  unfold nextDayData
  split
  · simp only [storeNext]; omega
  · simp only [storeNext]; omega
  · split
    · simp only [storeNext]; omega
    · split_ifs with hc
      · simp only [storeNext] at hc ⊢; omega
      · simp only [storeNext] at hc ⊢; omega

theorem simulateNextDay_of_ge (M : MathEnv) (inp : StepInput) (w : World)
    (h : 365 ≤ w.data.currentDay) :
    simulateNextDay M inp w = .normal (showError "Reached end of 1-year projection" w) := by
  simp [simulateNextDay, h]

theorem simulateNextDay_day (M : MathEnv) (inp : StepInput) (w : World)
    (h : w.data.currentDay ≤ 365) :
    ∃ w1, simulateNextDay M inp w = .normal w1 ∧ w.data.currentDay ≤ w1.data.currentDay ∧
      w1.data.currentDay ≤ 365 := by
  by_cases hlt : w.data.currentDay < 365
  · obtain ⟨w1, h1, hd1, _⟩ := simulateNextDay_of_lt M inp w hlt
    have := nextDayData_day M inp w.data hlt
    exact ⟨w1, h1, by rw [hd1]; omega, by rw [hd1]; exact this.2⟩
  · exact ⟨_, simulateNextDay_of_ge M inp w (by omega), le_refl _, h⟩

theorem simulate_run (M : MathEnv) (inputs : ℕ → StepInput) :
    ∀ (remaining calls : ℕ) (w : World), w.data.currentDay ≤ 365 →
      (simulate M inputs remaining calls w).calls = calls + remaining ∧
      (simulate M inputs remaining calls w).rejected = false ∧
      w.data.currentDay ≤ (simulate M inputs remaining calls w).world.data.currentDay ∧
      (simulate M inputs remaining calls w).world.data.currentDay ≤ 365 := by
  intro remaining
  induction remaining with
  | zero => intro calls w h; exact ⟨rfl, rfl, le_refl _, h⟩
  | succ r ih =>
      intro calls w h
      obtain ⟨w1, h1, hmono, hle⟩ := simulateNextDay_day M (inputs calls) w h
      obtain ⟨hc, hr, hm, hb⟩ := ih (calls + 1) w1 hle
      simp only [simulate, h1]
      exact ⟨by omega, hr, le_trans hmono hm, hb⟩

/-- C1. At or past day 365 both `simulateNextDay` and `simulateDayLocally` leave the
simulation data alone: `simulateNextDay` completes normally, only shows the notice
"Reached end of 1-year projection", keeps `state.data` (the day, every projection
price, the last price, the history) and sends no request; `simulateDayLocally`
returns the state it was given. -/
theorem terminal_day_is_noop (M : MathEnv) (inp : StepInput) (dr : LocalDraws) (w : World)
    (h : 365 ≤ w.data.currentDay) :
    (∃ w1, simulateNextDay M inp w = .normal w1 ∧ w1.data = w.data ∧
      w1.requests = w.requests ∧ w1.stockData = w.stockData ∧
      w1.ui.errorText = some "Reached end of 1-year projection" ∧ w1.ui.errorShown = true) ∧
    simulateDayLocally M dr w = .normal w :=
  ⟨⟨_, simulateNextDay_of_ge M inp w h, rfl, rfl, rfl, rfl, rfl⟩,
    simulateDayLocally_of_ge M dr w h⟩

/-- C1, instance: a session at day 365 with every projection entry filled. -/
theorem terminal_day_is_noop_witness :
    365 ≤ doneWorld.data.currentDay ∧
    ((∃ w1, simulateNextDay sampleMath rejectedInput doneWorld = .normal w1 ∧
        w1.data = doneWorld.data ∧ w1.requests = doneWorld.requests ∧
        w1.stockData = doneWorld.stockData ∧
        w1.ui.errorText = some "Reached end of 1-year projection" ∧ w1.ui.errorShown = true) ∧
      simulateDayLocally sampleMath quietDraws doneWorld = .normal doneWorld) :=
  ⟨le_refl 365,
    terminal_day_is_noop sampleMath rejectedInput quietDraws doneWorld (le_refl 365)⟩

/-! ### Binary64 rounding -/

theorem pow2_eq_zpow (e : ℤ) : pow2 e = (2 : ℚ) ^ e := by
  unfold pow2
  split_ifs with h
  · have he : e = ((e.toNat : ℕ) : ℤ) := (Int.toNat_of_nonneg h).symm
    conv_rhs => rw [he]
    rw [zpow_natCast]
    push_cast
    rfl
  · have hneg : (0 : ℤ) ≤ -e := by omega
    have he : e = -(((-e).toNat : ℕ) : ℤ) := by
      rw [Int.toNat_of_nonneg hneg]; ring
    conv_rhs => rw [he]
    rw [zpow_neg, zpow_natCast]
    push_cast
    rw [one_div]

theorem pow2_pos (e : ℤ) : 0 < pow2 e := by
  rw [pow2_eq_zpow]; positivity

theorem pow2_add (a b : ℤ) : pow2 (a + b) = pow2 a * pow2 b := by
  simp only [pow2_eq_zpow]
  exact zpow_add₀ (by norm_num) a b

theorem pow2_mono {a b : ℤ} (h : a ≤ b) : pow2 a ≤ pow2 b := by
  obtain ⟨k, rfl⟩ : ∃ k : ℕ, b = a + k := ⟨(b - a).toNat, by omega⟩
  rw [pow2_add]
  have h1 : (1 : ℚ) ≤ pow2 (k : ℤ) := by
    rw [pow2_eq_zpow, zpow_natCast]
    exact one_le_pow₀ (by norm_num)
  have := pow2_pos a
  nlinarith

theorem pow2_natCast (n : ℕ) : pow2 (n : ℤ) = (2 : ℚ) ^ n := by
  rw [pow2_eq_zpow, zpow_natCast]

theorem searchLog2_spec (a : ℚ) : ∀ (n : ℕ) (lo : ℤ), pow2 lo ≤ a → a < pow2 (lo + 2 ^ n) →
    pow2 (searchLog2 a n lo) ≤ a ∧ a < pow2 (searchLog2 a n lo + 1) := by
  intro n
  induction n with
  | zero =>
      intro lo h1 h2
      simpa [searchLog2] using And.intro h1 h2
  | succ n ih =>
      intro lo h1 h2
      simp only [searchLog2]
      have hsplit : lo + 2 ^ (n + 1) = lo + 2 ^ n + 2 ^ n := by ring
      split_ifs with hmid
      · exact ih _ hmid (by rw [hsplit] at h2; exact h2)
      · exact ih _ h1 (not_le.mp hmid)

theorem floorLog2_spec (a : ℚ) (h1 : pow2 (-2048) ≤ a) (h2 : a < pow2 2048) :
    pow2 (floorLog2 a) ≤ a ∧ a < pow2 (floorLog2 a + 1) := by
  unfold floorLog2
  exact searchLog2_spec a 12 (-2048) h1 (by norm_num; exact h2)

theorem roundHalfEven_bounds (x : ℚ) :
    ((Rat.floor x : ℤ) : ℚ) ≤ (roundHalfEven x : ℚ) ∧ (roundHalfEven x : ℚ) ≤ x + 1 := by
  have hfl : ((Rat.floor x : ℤ) : ℚ) ≤ x := Rat.le_floor.mp (le_refl _)
  unfold roundHalfEven
  simp only
  split_ifs
  · exact ⟨le_refl _, by linarith⟩
  · push_cast; exact ⟨by linarith, by linarith⟩
  · exact ⟨le_refl _, by linarith⟩
  · push_cast; exact ⟨by linarith, by linarith⟩

theorem roundHalfEven_nonneg (x : ℚ) (h : 0 ≤ x) : (0 : ℚ) ≤ (roundHalfEven x : ℚ) := by
  have h0 : (0 : ℤ) ≤ Rat.floor x := by rw [Rat.le_floor]; exact_mod_cast h
  have := (roundHalfEven_bounds x).1
  have h0q : (0 : ℚ) ≤ ((Rat.floor x : ℤ) : ℚ) := by exact_mod_cast h0
  linarith

theorem nearestDouble_nonneg (q : ℚ) (h : 0 ≤ q) : 0 ≤ nearestDouble q := by
  unfold nearestDouble
  simp only [not_lt.mpr h, if_false]
  have hp := pow2_pos (ulpExponent |q|)
  have hx : 0 ≤ |q| / pow2 (ulpExponent |q|) := div_nonneg (abs_nonneg q) (le_of_lt hp)
  exact mul_nonneg (roundHalfEven_nonneg _ hx) (le_of_lt hp)

theorem nearestDouble_nonpos (q : ℚ) (h : q ≤ 0) : nearestDouble q ≤ 0 := by
  by_cases h0 : q < 0
  · unfold nearestDouble
    simp only [h0, if_true]
    have hp := pow2_pos (ulpExponent |q|)
    have hx : 0 ≤ |q| / pow2 (ulpExponent |q|) := div_nonneg (abs_nonneg q) (le_of_lt hp)
    have := mul_nonneg (roundHalfEven_nonneg _ hx) (le_of_lt hp)
    linarith
  · have hq : q = 0 := le_antisymm h (not_lt.mp h0)
    subst hq
    have : nearestDouble 0 = 0 := by decide!
    rw [this]

theorem toDouble_zero : toDouble 0 = .fin 0 := by decide!

theorem toDouble_nonneg (q : ℚ) (h : 0 ≤ q) :
    toDouble q = .inf false ∨ ∃ r : ℚ, 0 ≤ r ∧ toDouble q = .fin r := by
  unfold toDouble
  split_ifs with hov
  · left; simp [not_lt.mpr h]
  · right; exact ⟨_, nearestDouble_nonneg q h, rfl⟩

theorem toDouble_nonpos (q : ℚ) (h : q ≤ 0) :
    toDouble q = .inf true ∨ ∃ r : ℚ, r ≤ 0 ∧ toDouble q = .fin r := by
  by_cases h0 : q < 0
  · unfold toDouble
    split_ifs with hov
    · left; simp [h0]
    · right; exact ⟨_, nearestDouble_nonpos q h, rfl⟩
  · have hq : q = 0 := le_antisymm h (not_lt.mp h0)
    subst hq
    exact Or.inr ⟨0, le_refl _, toDouble_zero⟩

/-- Between a cent and `10^21` rounding to binary64 neither underflows nor
overflows: the result is finite and positive. -/
theorem toDouble_pos (q : ℚ) (h1 : 1 / 100 ≤ q) (h2 : q ≤ 10 ^ 21) :
    ∃ r : ℚ, 0 < r ∧ toDouble q = .fin r := by
  have hq : 0 < q := by linarith
  have habs : |q| = q := abs_of_pos hq
  have hlo : pow2 (-2048) ≤ q := by
    have : pow2 (-2048) ≤ pow2 (-7) := pow2_mono (by norm_num)
    have h7 : pow2 (-7) = 1 / 128 := by decide!
    linarith [this, h7 ▸ this]
  have hhi : q < pow2 2048 := by
    have : pow2 70 ≤ pow2 2048 := pow2_mono (by norm_num)
    have h70 : pow2 70 = 1180591620717411303424 := by decide!
    rw [h70] at this
    have : (10 : ℚ) ^ 21 < 1180591620717411303424 := by norm_num
    linarith
  obtain ⟨hk1, hk2⟩ := floorLog2_spec q hlo hhi
  set k := floorLog2 q with hk
  have hkge : -7 ≤ k := by
    by_contra hlt
    have : pow2 (k + 1) ≤ pow2 (-7) := pow2_mono (by omega)
    have h7 : pow2 (-7) = 1 / 128 := by decide!
    rw [h7] at this
    linarith
  have hkle : k ≤ 69 := by
    by_contra hgt
    have : pow2 70 ≤ pow2 k := pow2_mono (by omega)
    have h70 : pow2 70 = 1180591620717411303424 := by decide!
    rw [h70] at this
    have : (10 : ℚ) ^ 21 < 1180591620717411303424 := by norm_num
    linarith
  have he : ulpExponent q = k - 52 := by
    unfold ulpExponent
    rw [← hk, max_eq_left (by omega)]
  have hpe := pow2_pos (k - 52)
  have hsplit : pow2 k = pow2 (k - 52) * pow2 52 := by
    rw [← pow2_add]; congr 1; ring
  have h52 : pow2 52 = 4503599627370496 := by decide!
  -- the mantissa is at least 2^52
  have hx : pow2 52 ≤ q / pow2 (k - 52) := by
    rw [le_div_iff₀ hpe]
    rw [hsplit] at hk1
    linarith [mul_comm (pow2 (k - 52)) (pow2 52)]
  have hm1 : (4503599627370496 : ℚ) ≤ (roundHalfEven (q / pow2 (k - 52)) : ℚ) := by
    have hfl : (4503599627370496 : ℤ) ≤ Rat.floor (q / pow2 (k - 52)) := by
      rw [Rat.le_floor]; push_cast; rw [← h52]; exact hx
    have := (roundHalfEven_bounds (q / pow2 (k - 52))).1
    have hflq : (4503599627370496 : ℚ) ≤ ((Rat.floor (q / pow2 (k - 52)) : ℤ) : ℚ) := by
      exact_mod_cast hfl
    linarith
  have hm2 := (roundHalfEven_bounds (q / pow2 (k - 52))).2
  have hnd : nearestDouble q = (roundHalfEven (q / pow2 (k - 52)) : ℚ) * pow2 (k - 52) := by
    unfold nearestDouble
    simp only [habs, he, not_lt.mpr (le_of_lt hq), if_false]
  have hpos : 0 < nearestDouble q := by
    rw [hnd]; exact mul_pos (by linarith) hpe
  have hupper : nearestDouble q ≤ 2 * q := by
    rw [hnd]
    have hmul : (roundHalfEven (q / pow2 (k - 52)) : ℚ) * pow2 (k - 52) ≤
        (q / pow2 (k - 52) + 1) * pow2 (k - 52) :=
      mul_le_mul_of_nonneg_right hm2 (le_of_lt hpe)
    have hexp : (q / pow2 (k - 52) + 1) * pow2 (k - 52) = q + pow2 (k - 52) := by
      field_simp
    have hsmall : pow2 (k - 52) ≤ q := by
      have : pow2 (k - 52) ≤ pow2 k := pow2_mono (by omega)
      linarith
    linarith
  have hno : ¬ pow2 1024 ≤ |nearestDouble q| := by
    rw [abs_of_pos hpos]
    have : pow2 72 ≤ pow2 1024 := pow2_mono (by norm_num)
    have h72 : pow2 72 = 4722366482869645213696 := by decide!
    rw [h72] at this
    have : (2 : ℚ) * 10 ^ 21 < 4722366482869645213696 := by norm_num
    intro hcon
    linarith
  exact ⟨nearestDouble q, hpos, by unfold toDouble; rw [if_neg hno]⟩

theorem roundHalfEven_close (x : ℚ) : |(roundHalfEven x : ℚ) - x| ≤ 1 / 2 := by
  have h1 : ((Rat.floor x : ℤ) : ℚ) ≤ x := Rat.le_floor.mp (le_refl _)
  have h2 : x < ((Rat.floor x : ℤ) : ℚ) + 1 := by
    by_contra hlt
    push_neg at hlt
    have : Rat.floor x + 1 ≤ Rat.floor x := by
      rw [Rat.le_floor]; push_cast; exact hlt
    omega
  unfold roundHalfEven
  simp only
  rw [abs_le]
  split_ifs with ha hb hc
  · constructor <;> linarith
  · push_cast; constructor <;> linarith
  · have : x - ((Rat.floor x : ℤ) : ℚ) = 1 / 2 := le_antisymm (not_lt.mp hb) (not_lt.mp ha)
    constructor <;> linarith
  · have : x - ((Rat.floor x : ℤ) : ℚ) = 1 / 2 := le_antisymm (not_lt.mp hb) (not_lt.mp ha)
    push_cast; constructor <;> linarith

theorem scaled_round_close (a P : ℚ) (hP : 0 < P) :
    |(roundHalfEven (a / P) : ℚ) * P - a| ≤ P / 2 := by
  have hr := roundHalfEven_close (a / P)
  have heq : (roundHalfEven (a / P) : ℚ) * P - a = ((roundHalfEven (a / P) : ℚ) - a / P) * P := by
    field_simp
  rw [heq, abs_mul, abs_of_pos hP]
  calc |(roundHalfEven (a / P) : ℚ) - a / P| * P ≤ 1 / 2 * P :=
        mul_le_mul_of_nonneg_right hr (le_of_lt hP)
    _ = P / 2 := by ring

/-- Rounding moves a value by at most half a unit in the last place. -/
theorem nearestDouble_close (q : ℚ) :
    |nearestDouble q - q| ≤ pow2 (ulpExponent |q|) / 2 := by
  have hs := scaled_round_close |q| (pow2 (ulpExponent |q|)) (pow2_pos _)
  unfold nearestDouble
  simp only
  split_ifs with hneg
  · have habs : |q| = -q := abs_of_neg hneg
    rw [habs] at hs ⊢
    have : -((roundHalfEven (-q / pow2 (ulpExponent (-q))) : ℚ) * pow2 (ulpExponent (-q))) - q =
        -((roundHalfEven (-q / pow2 (ulpExponent (-q))) : ℚ) * pow2 (ulpExponent (-q)) - -q) := by
      ring
    rw [this, abs_neg]
    exact hs
  · have habs : |q| = q := abs_of_nonneg (not_lt.mp hneg)
    rw [habs] at hs ⊢
    exact hs

/-- The rounding on well-known values: `0.1 + 0.2` is `0.30000000000000004` and
not `0.3`; `1.005.toFixed(2)` is "1.00"; a tie goes to the even neighbour; the
largest finite value is `2^1024 - 2^971` and half a unit above it overflows. -/
theorem toDouble_examples :
    Num.add (lit (1 / 10)) (lit (2 / 10)) = toDouble (30000000000000004 / 10 ^ 17) ∧
    Num.add (lit (1 / 10)) (lit (2 / 10)) ≠ lit (3 / 10) ∧
    toFixed2 (lit (1005 / 1000)) = .dec false 100 ∧
    toDouble ((2 ^ 53 + 1 : ℕ) : ℚ) = .fin ((2 ^ 53 : ℕ) : ℚ) ∧
    toDouble ((2 ^ 53 + 3 : ℕ) : ℚ) = .fin ((2 ^ 53 + 4 : ℕ) : ℚ) ∧
    toDouble ((2 ^ 1024 - 2 ^ 970 - 1 : ℕ) : ℚ) = .fin ((2 ^ 1024 - 2 ^ 971 : ℕ) : ℚ) ∧
    toDouble ((2 ^ 1024 - 2 ^ 970 : ℕ) : ℚ) = .inf false ∧
    toDouble (1 / ((2 ^ 1075 : ℕ) : ℚ)) = .fin 0 := by
  decide!

/-! ### The run of `fastForward` -/

theorem simulateNextDay_normal (M : MathEnv) (inp : StepInput) (w : World) :
    ∃ w1, simulateNextDay M inp w = .normal w1 := by
  by_cases hlt : w.data.currentDay < 365
  · obtain ⟨w1, h1, _⟩ := simulateNextDay_of_lt M inp w hlt
    exact ⟨w1, h1⟩
  · exact ⟨_, simulateNextDay_of_ge M inp w (by omega)⟩

theorem runCalls_day_le (M : MathEnv) (inputs : ℕ → StepInput) (w : World)
    (h : w.data.currentDay ≤ 365) : ∀ k, (runCalls M inputs k w).data.currentDay ≤ 365 := by
  intro k
  induction k with
  | zero => exact h
  | succ k ih =>
      obtain ⟨w1, h1, _, hle⟩ := simulateNextDay_day M (inputs k) (runCalls M inputs k w) ih
      show (simulateNextDay M (inputs k) (runCalls M inputs k w)).world.data.currentDay ≤ 365
      rw [h1]; exact hle

theorem simulate_world (M : MathEnv) (inputs : ℕ → StepInput) (w : World) :
    ∀ (remaining calls : ℕ),
      (simulate M inputs remaining calls (runCalls M inputs calls w)).world =
        runCalls M inputs (calls + remaining) w := by
  intro remaining
  induction remaining with
  | zero => intro calls; rfl
  | succ r ih =>
      intro calls
      obtain ⟨w1, h1⟩ := simulateNextDay_normal M (inputs calls) (runCalls M inputs calls w)
      have hnext : runCalls M inputs (calls + 1) w = w1 := by
        show (simulateNextDay M (inputs calls) (runCalls M inputs calls w)).world = w1
        rw [h1]; rfl
      simp only [simulate, h1]
      rw [← hnext, ih (calls + 1)]
      congr 1
      omega

/-- C7. For every integer `n` and every state with `currentDay` at most 365,
`fastForward n` finishes after exactly `max 0 (min n (365 - currentDay))` calls of
`simulateNextDay`, made one after another: the state it ends in is the state of
that many successive calls, each started from the state the previous one left, and
none of them rejects. The day never decreases and never exceeds 365, neither at the
end nor after any of the calls; and for `n ≤ 0` or `currentDay = 365` it makes no
call and returns the state unchanged. -/
theorem fastForward_call_count (M : MathEnv) (inputs : ℕ → StepInput) (n : ℤ) (w : World)
    (h : w.data.currentDay ≤ 365) :
    ((fastForward M inputs n w).calls : ℤ) = max 0 (min n (365 - (w.data.currentDay : ℤ))) ∧
    (fastForward M inputs n w).rejected = false ∧
    (fastForward M inputs n w).world = runCalls M inputs (fastForward M inputs n w).calls w ∧
    (∀ k, k < (fastForward M inputs n w).calls →
      (simulateNextDay M (inputs k) (runCalls M inputs k w)).isThrow = false) ∧
    (∀ k, (runCalls M inputs k w).data.currentDay ≤ 365) ∧
    w.data.currentDay ≤ (fastForward M inputs n w).world.data.currentDay ∧
    (fastForward M inputs n w).world.data.currentDay ≤ 365 ∧
    ((n ≤ 0 ∨ w.data.currentDay = 365) →
      (fastForward M inputs n w).world = w ∧ (fastForward M inputs n w).calls = 0) := by
  have hnothrow : ∀ k, (simulateNextDay M (inputs k) (runCalls M inputs k w)).isThrow = false := by
    intro k
    obtain ⟨w1, h1⟩ := simulateNextDay_normal M (inputs k) (runCalls M inputs k w)
    rw [h1]; rfl
  by_cases hr : min n (365 - (w.data.currentDay : ℤ)) ≤ 0
  · have hff : fastForward M inputs n w = ⟨w, 0, false⟩ := by
      unfold fastForward; rw [if_pos hr]
    rw [hff]
    refine ⟨?_, rfl, rfl, fun k _ => hnothrow k, runCalls_day_le M inputs w h, le_refl _, h,
      fun _ => ⟨rfl, rfl⟩⟩
    simp [max_eq_left hr]
  · have hff : fastForward M inputs n w =
        simulate M inputs (min n (365 - (w.data.currentDay : ℤ))).toNat 0 w := by
      unfold fastForward; rw [if_neg hr]
    rw [hff]
    obtain ⟨hc, hrej, hm, hb⟩ :=
      simulate_run M inputs (min n (365 - (w.data.currentDay : ℤ))).toNat 0 w h
    have hworld := simulate_world M inputs w (min n (365 - (w.data.currentDay : ℤ))).toNat 0
    refine ⟨?_, hrej, ?_, fun k _ => hnothrow k, runCalls_day_le M inputs w h, hm, hb, ?_⟩
    · rw [hc]
      have : 0 ≤ min n (365 - (w.data.currentDay : ℤ)) := by omega
      simp [Int.toNat_of_nonneg this, max_eq_right this]
    · rw [hc]
      exact hworld
    · intro hz
      exfalso
      apply hr
      rcases hz with hz | hz
      · exact le_trans (min_le_left _ _) hz
      · refine le_trans (min_le_right _ _) ?_
        omega

/-- C7, instance: fast-forwarding 10 days from a freshly loaded session whose
requests all fail makes 10 calls, sends 10 requests and ends at day 10. -/
theorem fastForward_call_count_witness :
    (freshWorld 175).data.currentDay ≤ 365 ∧
    ((fastForward sampleMath (fun _ => rejectedInput) 10 (freshWorld 175)).calls : ℤ) =
      max 0 (min 10 (365 - ((freshWorld 175).data.currentDay : ℤ))) ∧
    (fastForward sampleMath (fun _ => rejectedInput) 10 (freshWorld 175)).world =
      runCalls sampleMath (fun _ => rejectedInput)
        (fastForward sampleMath (fun _ => rejectedInput) 10 (freshWorld 175)).calls
        (freshWorld 175) ∧
    (fastForward sampleMath (fun _ => rejectedInput) 10 (freshWorld 175)).calls = 10 ∧
    (fastForward sampleMath (fun _ => rejectedInput) 10
      (freshWorld 175)).world.requests.length = 10 ∧
    (fastForward sampleMath (fun _ => rejectedInput) 10
      (freshWorld 175)).world.data.currentDay = 10 :=
  ⟨by decide,
    (fastForward_call_count sampleMath (fun _ => rejectedInput) 10 (freshWorld 175)
      (by decide)).1,
    (fastForward_call_count sampleMath (fun _ => rejectedInput) 10 (freshWorld 175)
      (by decide)).2.2.1, by decide!, by decide!, by decide!⟩

/-! ### The price stored by a local step -/

theorem storeNext_day (d : Data) (v : Val) : (storeNext d v).currentDay = d.currentDay + 1 := rfl

theorem jsGet_storeNext (d : Data) (v : Val) :
    jsGet (storeNext d v).projection.prices d.currentDay = v :=
  jsGet_jsSet_same _ _ _

theorem localNewPrice_of_pos (M : MathEnv) (gauss : Num) (c : ℚ) (hpos : 0 < c)
    (hF : (localFactor M gauss).posFinite = true) :
    localNewPrice M gauss (.num (.fin c)) = .inf false ∨
      ∃ p : ℚ, 0 ≤ p ∧ localNewPrice M gauss (.num (.fin c)) = .fin p := by
  unfold localNewPrice
  cases hf : localFactor M gauss with
  | fin f =>
      rw [hf] at hF
      have hfpos : 0 < f := by simpa [Num.posFinite] using hF
      exact toDouble_nonneg (c * f) (le_of_lt (mul_pos hpos hfpos))
  | nan => rw [hf] at hF; simp [Num.posFinite] at hF
  | inf s => rw [hf] at hF; simp [Num.posFinite] at hF

theorem localNewPrice_of_nonpos (M : MathEnv) (gauss : Num) (c : ℚ) (hc : c ≤ 0)
    (hF : (localFactor M gauss).posFinite = true) :
    localNewPrice M gauss (.num (.fin c)) = .inf true ∨
      ∃ p : ℚ, p ≤ 0 ∧ localNewPrice M gauss (.num (.fin c)) = .fin p := by
  unfold localNewPrice
  cases hf : localFactor M gauss with
  | fin f =>
      rw [hf] at hF
      have hfpos : 0 < f := by simpa [Num.posFinite] using hF
      exact toDouble_nonpos (c * f) (mul_nonpos_of_nonpos_of_nonneg hc (le_of_lt hfpos))
  | nan => rw [hf] at hF; simp [Num.posFinite] at hF
  | inf s => rw [hf] at hF; simp [Num.posFinite] at hF

theorem stored_of_tiny (p : ℚ) (h0 : 0 ≤ p) (h : p < 1 / 200) :
    parseFloat (toFixed2 (.fin p)) = .fin 0 := by
  have hn : roundHundredths p = 0 := by
    by_contra hne
    have : 0 < roundHundredths p := Nat.pos_of_ne_zero hne
    have := (roundHundredths_pos_iff p h0).mp this
    linarith
  rw [toFixed2_of_small p h0 (by linarith [show (1 : ℚ) / 200 < 10 ^ 21 by norm_num]), hn]
  simp [parseFloat, toDouble_zero]

theorem stored_of_mid (p : ℚ) (h1 : 1 / 200 ≤ p) (h2 : p < 10 ^ 21) :
    parseFloat (toFixed2 (.fin p)) = toDouble ((roundHundredths p : ℚ) / 100) ∧
      0 < roundHundredths p ∧ |(roundHundredths p : ℚ) / 100 - p| ≤ 1 / 200 ∧
      ∃ r : ℚ, 0 < r ∧ parseFloat (toFixed2 (.fin p)) = .fin r := by
  have h0 : 0 ≤ p := by linarith
  have hn : 0 < roundHundredths p := (roundHundredths_pos_iff p h0).mpr h1
  have hval : parseFloat (toFixed2 (.fin p)) = toDouble ((roundHundredths p : ℚ) / 100) := by
    rw [toFixed2_of_small p h0 h2]
    simp [parseFloat]
  have hnq : (1 : ℚ) ≤ (roundHundredths p : ℚ) := by exact_mod_cast hn
  have hub : (roundHundredths p : ℚ) ≤ p * 100 + 1 / 2 := (roundHundredths_bounds p h0).1
  -- an integer below 10^23 + 1/2 is at most 10^23
  have hle : (roundHundredths p : ℚ) ≤ 10 ^ 23 := by
    have hlt : (roundHundredths p : ℚ) < 10 ^ 23 + 1 := by
      have : p * 100 < 10 ^ 23 := by linarith
      linarith
    have hnat : roundHundredths p < 10 ^ 23 + 1 := by exact_mod_cast hlt
    have : roundHundredths p ≤ 10 ^ 23 := by omega
    exact_mod_cast this
  obtain ⟨r, hr, hd⟩ := toDouble_pos ((roundHundredths p : ℚ) / 100) (by linarith) (by linarith)
  exact ⟨hval, hn, roundHundredths_close p h0, r, hr, by rw [hval, hd]⟩

theorem stored_of_big (p : ℚ) (h : 10 ^ 21 ≤ p) : parseFloat (toFixed2 (.fin p)) = .fin p := by
  have h0 : 0 ≤ p := le_trans (by norm_num) h
  have habs : (10 : ℚ) ^ 21 ≤ |p| := by rw [abs_of_nonneg h0]; exact h
  simp [toFixed2, habs, parseFloat]

/-- The largest finite binary64 value, `(2^53 - 1) * 2^971`. -/
theorem maxDouble_is_double :
    toDouble ((2 ^ 1024 - 2 ^ 971 : ℕ) : ℚ) = .fin ((2 ^ 1024 - 2 ^ 971 : ℕ) : ℚ) := by
  decide!

/-- C5 (counterexample). A positive current price of `2^-10`, about a tenth of a
cent, is stored as 0, which is not strictly positive; and the largest finite price
with a growth factor above 1 is stored as `Infinity`, which is not finite. In both
cases the growth factor is a positive finite number. -/
theorem tiny_price_rounds_to_zero :
    getCurrentPrice tinyWorld.data = .num (.fin (1 / 1024)) ∧
    (localFactor sampleMath (quietDraws.gauss sampleMath)).posFinite = true ∧
    jsGet (simulateDayLocally sampleMath quietDraws tinyWorld).world.data.projection.prices 0 =
      .num (.fin 0) ∧
    getCurrentPrice hugeWorld.data = .num (.fin ((2 ^ 1024 - 2 ^ 971 : ℕ) : ℚ)) ∧
    (localFactor sampleMath (risingDraws.gauss sampleMath)).posFinite = true ∧
    jsGet (simulateDayLocally sampleMath risingDraws hugeWorld).world.data.projection.prices 0 =
      .num (.inf false) := by
  decide!

/-- C5 (amended). For a positive finite current price `c` and a positive finite
growth factor `Math.exp((mu - 0.5*sigma**2)*dt + sigma*Math.sqrt(dt)*z)`, the local
step completes and stores `parseFloat(p.toFixed(2))`, where `p` is the binary64
product of the two. Either the product overflows and `Infinity` is stored, or `p` is
finite and non-negative and: below half a cent, 0 is stored; from half a cent up to
`10^21`, the binary64 value nearest to `n / 100` is stored, `n ≥ 1` being the integer
nearest to `100 p` (ties upwards), a strictly positive finite number with `n / 100`
within half a cent of `p`; from `10^21` on, `p` itself is stored. -/
theorem local_price_is_rounded (M : MathEnv) (dr : LocalDraws) (w : World) (c : ℚ)
    (hd : w.data.currentDay < 365) (hc : getCurrentPrice w.data = .num (.fin c))
    (hpos : 0 < c) (hF : (localFactor M (dr.gauss M)).posFinite = true) :
    ∃ w1 stored, simulateDayLocally M dr w = .normal w1 ∧
      jsGet w1.data.projection.prices w.data.currentDay = .num stored ∧
      stored = parseFloat (toFixed2 (Num.mul (.fin c) (localFactor M (dr.gauss M)))) ∧
      ((Num.mul (.fin c) (localFactor M (dr.gauss M)) = .inf false ∧ stored = .inf false) ∨
        ∃ p : ℚ, 0 ≤ p ∧ Num.mul (.fin c) (localFactor M (dr.gauss M)) = .fin p ∧
          (p < 1 / 200 → stored = .fin 0) ∧
          (1 / 200 ≤ p → p < 10 ^ 21 →
            stored = toDouble ((roundHundredths p : ℚ) / 100) ∧ 0 < roundHundredths p ∧
            |(roundHundredths p : ℚ) / 100 - p| ≤ 1 / 200 ∧
            ∃ r : ℚ, 0 < r ∧ stored = .fin r) ∧
          (10 ^ 21 ≤ p → stored = .fin p)) := by
  obtain ⟨w1, h1, hd1, _, _⟩ := simulateDayLocally_of_lt M dr w hd
  have hget : jsGet w1.data.projection.prices w.data.currentDay =
      .num (parseFloat (toFixed2 (Num.mul (.fin c) (localFactor M (dr.gauss M))))) := by
    rw [hd1, jsGet_storeNext, hc]; rfl
  refine ⟨w1, _, h1, hget, rfl, ?_⟩
  rcases localNewPrice_of_pos M (dr.gauss M) c hpos hF with hinf | ⟨p, hp0, hp⟩
  · left
    have hinf2 : Num.mul (.fin c) (localFactor M (dr.gauss M)) = .inf false := hinf
    exact ⟨hinf2, by rw [hinf2]; rfl⟩
  · right
    have hp2 : Num.mul (.fin c) (localFactor M (dr.gauss M)) = .fin p := hp
    refine ⟨p, hp0, hp2, ?_, ?_, ?_⟩
    · intro hsmall; rw [hp2]; exact stored_of_tiny p hp0 hsmall
    · intro h1 h2; rw [hp2]; exact stored_of_mid p h1 h2
    · intro hbig; rw [hp2]; exact stored_of_big p hbig

/-- C5, instance: one local step from a freshly loaded session with last price 175. -/
theorem local_price_is_rounded_witness :
    getCurrentPrice (freshWorld 175).data = .num (.fin 175) ∧
    (localFactor sampleMath (quietDraws.gauss sampleMath)).posFinite = true ∧
    ∃ w1 stored, simulateDayLocally sampleMath quietDraws (freshWorld 175) = .normal w1 ∧
      jsGet w1.data.projection.prices (freshWorld 175).data.currentDay = .num stored ∧
      stored = parseFloat (toFixed2
        (Num.mul (.fin 175) (localFactor sampleMath (quietDraws.gauss sampleMath)))) :=
  ⟨by decide!, by decide!,
    (local_price_is_rounded sampleMath quietDraws (freshWorld 175) 175 (by decide)
      (by decide!) (by norm_num) (by decide!)).imp
      fun _ h => h.imp fun _ h => ⟨h.1, h.2.1, h.2.2.1⟩⟩

/-- C10 (counterexample). In the initial state (last price 0, day 0) the local step
does not reject: it completes, stores the price 0 at index 0 and moves to day 1. -/
theorem initial_state_step_is_accepted :
    getCurrentPrice initialWorld.data = .num (.fin 0) ∧
    (simulateDayLocally sampleMath quietDraws initialWorld).isThrow = false ∧
    (simulateDayLocally sampleMath quietDraws initialWorld).world.data.currentDay = 1 ∧
    (simulateDayLocally sampleMath quietDraws initialWorld).world.data.projection.prices =
      [.num (.fin 0)] := by
  decide!

theorem nan_mul (x : Num) : Num.mul .nan x = .nan := by
  cases x <;> rfl

theorem nearestDouble_neg (q : ℚ) : nearestDouble (-q) = -nearestDouble q := by
  rcases lt_trichotomy q 0 with h | h | h
  · have h1 : ¬ (-q < 0) := by linarith
    unfold nearestDouble
    simp only [abs_neg, h, h1, if_true, if_false, neg_neg]
  · subst h
    have : nearestDouble 0 = 0 := by decide!
    simp [this]
  · have h1 : -q < 0 := by linarith
    have h2 : ¬ q < 0 := by linarith
    unfold nearestDouble
    simp only [abs_neg, h1, h2, if_true, if_false]

theorem toDouble_neg_of_pos (q : ℚ) (h1 : 1 / 100 ≤ q) (h2 : q ≤ 10 ^ 21) :
    ∃ r : ℚ, r < 0 ∧ toDouble (-q) = .fin r := by
  obtain ⟨r, hr, hd⟩ := toDouble_pos q h1 h2
  unfold toDouble at hd
  split_ifs at hd with hov
  have hnd : nearestDouble q = r := by
    injection hd
  refine ⟨-r, by linarith, ?_⟩
  unfold toDouble
  rw [nearestDouble_neg, abs_neg, if_neg hov, hnd]

theorem parseFloat_toFixed2_nonpos_finite (q : ℚ) (hq : q ≤ 0) :
    ∃ r : ℚ, r ≤ 0 ∧ parseFloat (toFixed2 (.fin q)) = .fin r := by
  have hdef : toFixed2 (.fin q) =
      if (10 : ℚ) ^ 21 ≤ |q| then .big q else .dec (decide (q < 0)) (roundHundredths q) := rfl
  rw [hdef]
  split_ifs with hbig
  · exact ⟨q, hq, rfl⟩
  · by_cases hneg : q < 0
    · have hval : parseFloat (.dec (decide (q < 0)) (roundHundredths q)) =
          toDouble (-((roundHundredths q : ℚ) / 100)) := by
        simp [parseFloat, hneg]
      rw [hval]
      by_cases hn : roundHundredths q = 0
      · rw [hn]
        exact ⟨0, le_refl _, by decide!⟩
      · have hnpos : (1 : ℚ) ≤ (roundHundredths q : ℚ) := by
          exact_mod_cast Nat.pos_of_ne_zero hn
        have hround : roundHundredths q = roundHundredths (-q) := by
          unfold roundHundredths; rw [abs_neg]
        have hub : (roundHundredths q : ℚ) ≤ -q * 100 + 1 / 2 := by
          rw [hround]; exact (roundHundredths_bounds (-q) (by linarith)).1
        have habs : |q| = -q := abs_of_neg hneg
        have hlt : -q < 10 ^ 21 := by rw [← habs]; exact not_le.mp hbig
        have hle : (roundHundredths q : ℚ) ≤ 10 ^ 23 := by
          have hlt2 : (roundHundredths q : ℚ) < 10 ^ 23 + 1 := by linarith
          have hnat : roundHundredths q < 10 ^ 23 + 1 := by exact_mod_cast hlt2
          have : roundHundredths q ≤ 10 ^ 23 := by omega
          exact_mod_cast this
        obtain ⟨r, hr, hd⟩ :=
          toDouble_neg_of_pos ((roundHundredths q : ℚ) / 100) (by linarith) (by linarith)
        exact ⟨r, le_of_lt hr, hd⟩
    · have hq0 : q = 0 := le_antisymm hq (not_lt.mp hneg)
      subst hq0
      exact ⟨0, le_refl _, by decide!⟩

/-- C10 (amended). The local step validates nothing: below day 365 it completes
normally whatever the current price is, stores an entry at index `currentDay` and
moves to the next day. The entry is `NaN` when the current price is `undefined`.
When the current price is a non-positive number and the growth factor is positive
and finite, the entry is a non-positive number: a finite value at most 0, or
`-Infinity` when the binary64 product of price and factor overflows. -/
theorem local_step_accepts_any_price (M : MathEnv) (dr : LocalDraws) (w : World)
    (hd : w.data.currentDay < 365) :
    ∃ w1, simulateDayLocally M dr w = .normal w1 ∧
      w1.data.currentDay = w.data.currentDay + 1 ∧
      jsGet w1.data.projection.prices w.data.currentDay =
        localPrice M (dr.gauss M) (getCurrentPrice w.data) ∧
      (getCurrentPrice w.data = .undefined →
        jsGet w1.data.projection.prices w.data.currentDay = .num .nan) ∧
      (∀ c : ℚ, getCurrentPrice w.data = .num (.fin c) → c ≤ 0 →
        (localFactor M (dr.gauss M)).posFinite = true →
        (Num.mul (.fin c) (localFactor M (dr.gauss M)) = .inf true ∧
          jsGet w1.data.projection.prices w.data.currentDay = .num (.inf true)) ∨
        ∃ r : ℚ, r ≤ 0 ∧ jsGet w1.data.projection.prices w.data.currentDay = .num (.fin r)) := by
  obtain ⟨w1, h1, hd1, _, _⟩ := simulateDayLocally_of_lt M dr w hd
  have hget : jsGet w1.data.projection.prices w.data.currentDay =
      localPrice M (dr.gauss M) (getCurrentPrice w.data) := by
    rw [hd1, jsGet_storeNext]
  refine ⟨w1, h1, by rw [hd1]; rfl, hget, ?_, ?_⟩
  · intro hu
    rw [hget, hu]
    simp [localPrice, localNewPrice, toNumber, nan_mul, toFixed2, parseFloat]
  · intro c hc hle hF
    have hstored : jsGet w1.data.projection.prices w.data.currentDay =
        .num (parseFloat (toFixed2 (Num.mul (.fin c) (localFactor M (dr.gauss M))))) := by
      rw [hget, hc]; rfl
    rcases localNewPrice_of_nonpos M (dr.gauss M) c hle hF with hinf | ⟨p, hp, hval⟩
    · left
      have hinf2 : Num.mul (.fin c) (localFactor M (dr.gauss M)) = .inf true := hinf
      exact ⟨hinf2, by rw [hstored, hinf2]; rfl⟩
    · right
      have hval2 : Num.mul (.fin c) (localFactor M (dr.gauss M)) = .fin p := hval
      obtain ⟨r, hr, hpf⟩ := parseFloat_toFixed2_nonpos_finite p hp
      exact ⟨r, hr, by rw [hstored, hval2, hpf]⟩

/-- C10, instance: the local step in the initial state, whose current price is 0. -/
theorem local_step_accepts_any_price_witness :
    initialWorld.data.currentDay < 365 ∧
    ∃ w1, simulateDayLocally sampleMath quietDraws initialWorld = .normal w1 ∧
      w1.data.currentDay = initialWorld.data.currentDay + 1 :=
  ⟨by decide,
    (local_step_accepts_any_price sampleMath quietDraws initialWorld (by decide)).imp
      fun _ h => ⟨h.1, h.2.1⟩⟩

/-! ### The derived view -/

theorem pctChange_fin (a b : ℚ) :
    pctChange (.num (.fin a)) (.num (.fin b)) =
      toFixed2 (percentOf a b) := rfl

theorem pct_of_equal (L : ℚ) (hL : L ≠ 0) : percentOf L L = .fin 0 := by
  unfold percentOf
  have h1 : Num.sub (.fin L) (.fin L) = .fin 0 := by
    show toDouble (L - L) = .fin 0
    rw [sub_self, toDouble_zero]
  have h2 : Num.div (.fin 0) (.fin L) = .fin 0 := by
    show (if L = 0 then (if (0 : ℚ) = 0 then Num.nan else Num.inf (decide ((0 : ℚ) < 0)))
      else toDouble (0 / L)) = .fin 0
    rw [if_neg hL, zero_div, toDouble_zero]
  have h3 : Num.mul (.fin 0) (.fin 100) = .fin 0 := by
    show toDouble (0 * 100) = .fin 0
    rw [zero_mul, toDouble_zero]
  rw [h1, h2, h3]

theorem toFixed2_zero : toFixed2 (.fin 0) = .dec false 0 := by decide!

/-- C6 (counterexample). With last price 3 and one projected price 4, `updateUI`
computes the total change as the string "33.33", which is neither the number the
expression `(4 - 3) / 3 * 100` evaluates to nor the exact quotient. -/
theorem total_change_is_rounded :
    (derivedView (worldAt (.num (.fin 3)) 1 [.num (.fin 4)]).data).totalChange =
      .dec false 3333 ∧
    parseFloat (derivedView (worldAt (.num (.fin 3)) 1 [.num (.fin 4)]).data).totalChange ≠
      percentOf 4 3 ∧
    parseFloat (derivedView (worldAt (.num (.fin 3)) 1 [.num (.fin 4)]).data).totalChange ≠
      .fin ((4 - 3) / 3 * 100) := by
  decide!

/-- C6 (amended). With a positive last price `L` and positive filled projection
entries, `updateUI` completes and its derived view is: current price `c`, the last
price at day 0 and otherwise the entry at `currentDay - 1`; previous price `p`, the
entry at `currentDay - 2` from day 2 on and otherwise the last price; daily change
`(c - p) / p * 100` and total change `(c - L) / L * 100`, each evaluated in
binary64 (`percentOf`) and BOTH rounded by `toFixed(2)`. At day 0 both are "0.00"; at day 1 the daily change is the change
against the last price. The day counter reads "Day d/365". -/
theorem derived_view_formulas (w : World) (L : ℚ) (hL : 0 < L)
    (hlast : w.data.lastPrice = .num (.fin L))
    (hfilled : ∀ i, i < w.data.currentDay →
      ∃ q : ℚ, 0 < q ∧ jsGet w.data.projection.prices i = .num (.fin q)) :
    ∃ c p : ℚ, 0 < c ∧ 0 < p ∧
      (derivedView w.data).currentPrice = .num (.fin c) ∧
      (derivedView w.data).currentPrice =
        (if w.data.currentDay = 0 then w.data.lastPrice
         else jsGet w.data.projection.prices (w.data.currentDay - 1)) ∧
      (derivedView w.data).prevPrice = .num (.fin p) ∧
      (derivedView w.data).prevPrice =
        (if 2 ≤ w.data.currentDay then jsGet w.data.projection.prices (w.data.currentDay - 2)
         else w.data.lastPrice) ∧
      (derivedView w.data).dailyChange = toFixed2 (percentOf c p) ∧
      (derivedView w.data).totalChange = toFixed2 (percentOf c L) ∧
      (w.data.currentDay = 0 →
        (derivedView w.data).dailyChange = .dec false 0 ∧
        (derivedView w.data).totalChange = .dec false 0) ∧
      (w.data.currentDay = 1 →
        (derivedView w.data).dailyChange = toFixed2 (percentOf c L)) ∧
      ∃ w1, updateUI w = .normal w1 ∧ w1.data = w.data ∧
        w1.ui.currentPrice = some (toFixed2 (.fin c)) ∧
        w1.ui.dayCounter = some ("Day " ++ toString w.data.currentDay ++ "/365") ∧
        w1.ui.dailyChange =
          some ⟨(derivedView w.data).dailyChange.geZero, (derivedView w.data).dailyChange⟩ := by
  -- the current price
  have hcur : ∃ c : ℚ, 0 < c ∧ getCurrentPrice w.data = .num (.fin c) ∧
      getCurrentPrice w.data =
        (if w.data.currentDay = 0 then w.data.lastPrice
         else jsGet w.data.projection.prices (w.data.currentDay - 1)) ∧
      (w.data.currentDay = 0 → c = L) := by
    by_cases h0 : w.data.currentDay = 0
    · refine ⟨L, hL, ?_, ?_, fun _ => rfl⟩
      · simp [getCurrentPrice, h0, hlast]
      · simp [getCurrentPrice, h0]
    · obtain ⟨q, hq, hget⟩ := hfilled (w.data.currentDay - 1) (by omega)
      have hpos : w.data.currentDay > 0 := by omega
      refine ⟨q, hq, ?_, ?_, fun h => absurd h h0⟩
      · simp [getCurrentPrice, hpos, hget]
      · simp [getCurrentPrice, hpos, h0]
  obtain ⟨c, hc, hcv, hcdef, hc0⟩ := hcur
  -- the previous price
  have hprev : ∃ p : ℚ, 0 < p ∧ (derivedView w.data).prevPrice = .num (.fin p) ∧
      (derivedView w.data).prevPrice =
        (if 2 ≤ w.data.currentDay then jsGet w.data.projection.prices (w.data.currentDay - 2)
         else w.data.lastPrice) ∧
      (w.data.currentDay ≤ 1 → p = L) := by
    by_cases h2 : 2 ≤ w.data.currentDay
    · obtain ⟨q, hq, hget⟩ := hfilled (w.data.currentDay - 2) (by omega)
      have hpos : w.data.currentDay > 0 := by omega
      have hgt : w.data.currentDay > 1 := by omega
      refine ⟨q, hq, ?_, ?_, fun h => by omega⟩
      · simp [derivedView, hpos, hgt, hget]
      · simp [derivedView, hpos, hgt, h2]
    · have hgt : ¬ w.data.currentDay > 1 := by omega
      refine ⟨L, hL, ?_, ?_, fun _ => rfl⟩
      · simp [derivedView, hgt, hlast]
      · simp [derivedView, hgt, h2]
  obtain ⟨p, hp, hpv, hpdef, hp1⟩ := hprev
  have hcv2 : (derivedView w.data).currentPrice = .num (.fin c) := hcv
  have hdaily : (derivedView w.data).dailyChange = toFixed2 (percentOf c p) := by
    show pctChange (derivedView w.data).currentPrice (derivedView w.data).prevPrice = _
    rw [hcv2, hpv, pctChange_fin c p]
  have htotal : (derivedView w.data).totalChange = toFixed2 (percentOf c L) := by
    show pctChange (derivedView w.data).currentPrice w.data.lastPrice = _
    rw [hcv2, hlast, pctChange_fin c L]
  refine ⟨c, p, hc, hp, hcv2, hcdef, hpv, hpdef, hdaily, htotal, ?_, ?_, ?_⟩
  · intro h0
    have hcL : c = L := hc0 h0
    have hpL : p = L := hp1 (by omega)
    rw [hdaily, htotal, hcL, hpL, pct_of_equal L (ne_of_gt hL)]
    exact ⟨toFixed2_zero, toFixed2_zero⟩
  · intro h1
    rw [hdaily, hp1 (by omega)]
  · have hrun : updateUI w = .normal
        { w with
          ui.currentPrice := some (toFixed2 (.fin c))
          ui.dayCounter := some (dayLabel w.data.currentDay)
          ui.dailyChange :=
            some ⟨(derivedView w.data).dailyChange.geZero, (derivedView w.data).dailyChange⟩
          ui.priceChange :=
            if w.ui.hasPriceChange then
              some ⟨(derivedView w.data).dailyChange.geZero, (derivedView w.data).dailyChange⟩
            else w.ui.priceChange } := by
      unfold updateUI
      simp only [hcv2]
    exact ⟨_, hrun, rfl, rfl, rfl, rfl⟩

/-- C6, instance: last price 175 and one projected price 178.50 give a daily change
of 2.00 and the label "Day 1/365"; last price 100 at day 0 gives 0.00 twice. -/
theorem derived_view_formulas_witness :
    (derivedView (worldAt (.num (.fin 175)) 1 [.num (.fin (357 / 2))]).data).dailyChange =
      .dec false 200 ∧
    (derivedView (worldAt (.num (.fin 100)) 0 (List.replicate 365 .null)).data).dailyChange =
      .dec false 0 ∧
    (derivedView (worldAt (.num (.fin 100)) 0 (List.replicate 365 .null)).data).totalChange =
      .dec false 0 ∧
    (updateUI (worldAt (.num (.fin 175)) 1 [.num (.fin (357 / 2))])).world.ui.dayCounter =
      some "Day 1/365" ∧
    ∃ c p : ℚ, 0 < c ∧ 0 < p ∧
      (derivedView (worldAt (.num (.fin 175)) 1 [.num (.fin (357 / 2))]).data).currentPrice =
        .num (.fin c) ∧
      (derivedView (worldAt (.num (.fin 175)) 1 [.num (.fin (357 / 2))]).data).prevPrice =
        .num (.fin p) :=
  ⟨by decide!, by decide!, by decide!, by decide!,
    (derived_view_formulas (worldAt (.num (.fin 175)) 1 [.num (.fin (357 / 2))]) 175
      (by norm_num) rfl
      (fun i hi => ⟨357 / 2, by norm_num, by
        have : i = 0 := by
          have : i < 1 := hi
          omega
        subst this; rfl⟩)).imp
      fun _ h => h.imp fun _ h => ⟨h.1, h.2.1, h.2.2.1, h.2.2.2.2.1⟩⟩

/-- Rounding at work. The exact product `175 * 1.0007142857142857` lies just below
175.125 but as a binary64 product it is 175.125, so 175.13 is stored; and
`(207.25 - 200) / 200 * 100` evaluates to a number just below 3.625, so "3.62" is
shown where the exact quotient would give "3.63". -/
theorem binary64_rounding_examples :
    Num.mul (.fin 175) (toDouble (10007142857142857 / 10 ^ 16)) = .fin (175125 / 1000) ∧
    parseFloat (toFixed2 (Num.mul (.fin 175) (toDouble (10007142857142857 / 10 ^ 16)))) =
      toDouble (17513 / 100) ∧
    toFixed2 (percentOf (20725 / 100) 200) = .dec false 362 ∧
    toFixed2 (.fin ((20725 / 100 - 200) / 200 * 100)) = .dec false 363 := by
  decide!

/-! ### The projection invariant over a series of calls -/

theorem nextDayData_wellFormed (M : MathEnv) (inp : StepInput) (d : Data)
    (hwf : WellFormed inp) : ∃ n, nextDayData M inp d = storeNext d (.num n) := by
  unfold WellFormed at hwf
  unfold nextDayData
  split
  · exact ⟨_, rfl⟩
  · exact ⟨_, rfl⟩
  · rename_i body hpost
    rw [hpost] at hwf
    obtain ⟨n, hn⟩ := hwf
    exact ⟨n, by simp [hn]⟩

theorem filledTo_storeNext (k : ℕ) (d : Data) (n : Num) (hk : k < 365) (h : FilledTo k d) :
    FilledTo (k + 1) (storeNext d (.num n)) := by
  obtain ⟨hday, hlen, hent⟩ := h
  refine ⟨by rw [storeNext_day, hday], ?_, ?_⟩
  · show (jsSet d.projection.prices d.currentDay (.num n)).length = 365
    rw [jsSet_length_of_lt _ _ _ (by omega), hlen]
  · intro i hi
    show (i < k + 1 → ∃ m, jsGet (jsSet d.projection.prices d.currentDay (.num n)) i = .num m) ∧
      (k + 1 ≤ i → jsGet (jsSet d.projection.prices d.currentDay (.num n)) i = .null)
    rw [hday]
    by_cases hik : i = k
    · subst hik
      exact ⟨fun _ => ⟨n, jsGet_jsSet_same _ _ _⟩, fun h => by omega⟩
    · rw [jsGet_jsSet_of_ne _ _ _ _ hik]
      exact ⟨fun h => (hent i hi).1 (by omega), fun h => (hent i hi).2 (by omega)⟩

/-- Well-formed outcomes keep the projection invariant: after `k ≤ 365` calls the day
is `k`, indices below `k` hold numbers, the others are still unset, and the array
has 365 entries. -/
theorem wellFormed_calls_invariant (M : MathEnv) (inputs : ℕ → StepInput)
    (hwf : ∀ i, WellFormed (inputs i)) (w : World) (h0 : FilledTo 0 w.data) :
    ∀ k, k ≤ 365 → FilledTo k (runCalls M inputs k w).data := by
  intro k
  induction k with
  | zero => intro _; exact h0
  | succ k ih =>
      intro hk
      have hprev := ih (by omega)
      have hlt : (runCalls M inputs k w).data.currentDay < 365 := by rw [hprev.1]; omega
      obtain ⟨w1, h1, hd1, _⟩ := simulateNextDay_of_lt M (inputs k) _ hlt
      obtain ⟨n, hn⟩ := nextDayData_wellFormed M (inputs k) (runCalls M inputs k w).data (hwf k)
      show FilledTo (k + 1) (simulateNextDay M (inputs k) (runCalls M inputs k w)).world.data
      rw [h1]
      show FilledTo (k + 1) w1.data
      rw [hd1, hn]
      exact filledTo_storeNext k _ n (by omega) hprev

theorem jsGet_replicate (n i : ℕ) (v : Val) (h : i < n) : jsGet (List.replicate n v) i = v := by
  simp [jsGet, List.getD_eq_getElem?_getD, List.getElem?_replicate, h]

theorem freshWorld_filledTo (last : ℚ) : FilledTo 0 (freshWorld last).data := by
  refine ⟨rfl, List.length_replicate _ _, ?_⟩
  intro i hi
  exact ⟨fun h => by omega, fun _ => jsGet_replicate 365 i Val.null hi⟩

/-- C2 (the code at the failing input). From the freshly loaded state, a single
`simulateNextDay` call answered by a 2xx body without `new_price` ends at day 2, not
day 1: index 0 holds `undefined`, index 1 holds `NaN`; the array keeps 365 entries. -/
theorem empty_body_breaks_day_count :
    (freshWorld 175).data.currentDay = 0 ∧
    (freshWorld 175).data.projection.prices = List.replicate 365 Val.null ∧
    (runCalls sampleMath (fun _ => emptyBodyInput) 1 (freshWorld 175)).data.currentDay = 2 ∧
    jsGet (runCalls sampleMath (fun _ => emptyBodyInput) 1
      (freshWorld 175)).data.projection.prices 0 = .undefined ∧
    jsGet (runCalls sampleMath (fun _ => emptyBodyInput) 1
      (freshWorld 175)).data.projection.prices 1 = .num .nan ∧
    (runCalls sampleMath (fun _ => emptyBodyInput) 1
      (freshWorld 175)).data.projection.prices.length = 365 := by
  decide!

/-- When the request is rejected or the body is `null`, `simulateNextDay` completes
normally with exactly the data one local step from the pre-state produces. -/
theorem request_failure_is_one_local_step (M : MathEnv) (inp : StepInput) (w : World)
    (hd : w.data.currentDay < 365)
    (hfail : (∃ m, inp.post = .rejected m) ∨ inp.post = .resolved none) :
    ∃ w1, simulateNextDay M inp w = .normal w1 ∧
      w1.data = (simulateDayLocally M inp.fallback w).world.data ∧
      w1.data = storeNext w.data (localPrice M (inp.fallback.gauss M) (getCurrentPrice w.data)) := by
  obtain ⟨w1, h1, hd1, _⟩ := simulateNextDay_of_lt M inp w hd
  obtain ⟨w2, h2, hd2, _⟩ := simulateDayLocally_of_lt M inp.fallback w hd
  have hnd : nextDayData M inp w.data =
      storeNext w.data (localPrice M (inp.fallback.gauss M) (getCurrentPrice w.data)) := by
    rcases hfail with ⟨m, hm⟩ | hm <;> simp [nextDayData, hm]
  refine ⟨w1, h1, ?_, by rw [hd1, hnd]⟩
  rw [h2, hd1, hnd]
  exact hd2.symm

/-- C3 (the code at the failing input). At day 10 with a positive current price, a
2xx body without `new_price` does not produce the state of one local step: the
local step alone would end at day 11 with a number at index 10, but
`simulateNextDay` ends at day 12 with `undefined` at index 10 and `NaN` at index 11. -/
theorem empty_body_is_not_one_local_step :
    getCurrentPrice dayTenWorld.data = .num (.fin 180) ∧
    (simulateDayLocally sampleMath quietDraws dayTenWorld).world.data.currentDay = 11 ∧
    (simulateNextDay sampleMath emptyBodyInput dayTenWorld).isThrow = false ∧
    (simulateNextDay sampleMath emptyBodyInput dayTenWorld).world.data.currentDay = 12 ∧
    jsGet (simulateNextDay sampleMath emptyBodyInput dayTenWorld).world.data.projection.prices 10
      = .undefined ∧
    jsGet (simulateNextDay sampleMath emptyBodyInput dayTenWorld).world.data.projection.prices 11
      = .num .nan ∧
    (simulateNextDay sampleMath emptyBodyInput dayTenWorld).world.data ≠
      (simulateDayLocally sampleMath quietDraws dayTenWorld).world.data := by
  decide!

/-! ### Loading a stock and the demo data -/

theorem updateUI_world (w : World) :
    (updateUI w).world.data = w.data ∧ (updateUI w).world.stockData = w.stockData := by
  by_cases h : ∃ n, getCurrentPrice w.data = .num n
  · obtain ⟨n, hn⟩ := h
    obtain ⟨w1, h1, hd, _, hs⟩ := updateUI_num w n hn
    rw [h1]; exact ⟨hd, hs⟩
  · rw [updateUI_not_num w (fun n hn => h ⟨n, hn⟩)]; exact ⟨rfl, rfl⟩

theorem updateUI_world_data (w : World) : (updateUI w).world.data = w.data :=
  (updateUI_world w).1

theorem updateUI_world_stockData (w : World) : (updateUI w).world.stockData = w.stockData :=
  (updateUI_world w).2

theorem loadDemoData_data (M : MathEnv) (c : Clock) (rand : ℕ → ℚ) (symbol : String)
    (w : World) : (loadDemoData M c rand symbol w).world.data = demoData M c rand symbol := by
  unfold loadDemoData
  rw [updateUI_world_data]; rfl

theorem loadDemoData_stockData (M : MathEnv) (c : Clock) (rand : ℕ → ℚ) (symbol : String)
    (w : World) : (loadDemoData M c rand symbol w).world.stockData = w.stockData := by
  unfold loadDemoData
  rw [updateUI_world_stockData]; rfl

theorem loadStockTry_throws (inp : LoadInput) (w : World) :
    ∃ e w1, loadStockTry scriptGlobals inp w = .throw e w1 ∧ w1.stockData = w.stockData := by
  unfold loadStockTry
  cases hprobe : inp.probe with
  | some message => exact ⟨_, _, rfl, rfl⟩
  | none =>
    cases hstock : inp.stock with
    | rejected message => exact ⟨_, _, rfl, rfl⟩
    | resolved data =>
      cases data with
      | none => exact ⟨_, _, rfl, rfl⟩
      | some body =>
        cases hh : body.history with
        | none => simp only [hh]; exact ⟨_, _, rfl, rfl⟩
        | some h =>
          cases hp : h.prices with
          | none => simp only [hh, hp]; exact ⟨_, _, rfl, rfl⟩
          | some prices => simp only [hh, hp, scriptGlobals]; exact ⟨_, _, rfl, rfl⟩

theorem loadStock_world (M : MathEnv) (inp : LoadInput) (w : World) :
    (loadStock scriptGlobals M inp w).world.data =
        demoData M inp.clock inp.rand inp.symbol ∧
      (loadStock scriptGlobals M inp w).world.stockData = w.stockData := by
  obtain ⟨e, w1, h1, hs1⟩ := loadStockTry_throws inp (clearError (showLoading true w))
  have hd := loadDemoData_data M inp.clock inp.rand inp.symbol
    (showError ("Failed to load: " ++ e.message) w1)
  have hs := loadDemoData_stockData M inp.clock inp.rand inp.symbol
    (showError ("Failed to load: " ++ e.message) w1)
  unfold loadStock
  simp only [h1]
  cases hl : loadDemoData M inp.clock inp.rand inp.symbol
      (showError ("Failed to load: " ++ e.message) w1) with
  | normal w2 =>
      rw [hl] at hd hs
      exact ⟨hd, by rw [show w.stockData = w1.stockData from hs1.symm]; exact hs⟩
  | throw e2 w2 =>
      rw [hl] at hd hs
      exact ⟨hd, by rw [show w.stockData = w1.stockData from hs1.symm]; exact hs⟩

/-- C4 (the code at the failing input). `loadStock` never installs a backend payload:
for every input the data it leaves in `state.data` is the synthesised demo data, and
the global `stockData` is not assigned. With a reachable backend and the well-formed
payload of `goodLoad` (one price, 190) the call reports "generateProjectionDates is
not defined" and the history and last price in `state.data` are the synthesised
ones, not the payload. -/
theorem valid_payload_is_replaced_by_demo_data :
    (∀ (M : MathEnv) (inp : LoadInput) (w : World),
      (loadStock scriptGlobals M inp w).world.data = demoData M inp.clock inp.rand inp.symbol ∧
      (loadStock scriptGlobals M inp w).world.stockData = w.stockData) ∧
    (loadStock scriptGlobals sampleMath goodLoad initialWorld).world.ui.errorText =
      some "Failed to load: generateProjectionDates is not defined" ∧
    (loadStock scriptGlobals sampleMath goodLoad initialWorld).world.data.history.prices ≠
      [.num (.fin 190)] ∧
    (loadStock scriptGlobals sampleMath goodLoad initialWorld).world.data.history.dates ≠
      [19722] ∧
    (loadStock scriptGlobals sampleMath goodLoad initialWorld).world.data.lastPrice ≠
      .num (.fin 190) := by
  refine ⟨loadStock_world, by decide!, ?_, ?_, ?_⟩
  · rw [(loadStock_world sampleMath goodLoad initialWorld).1]; decide!
  · rw [(loadStock_world sampleMath goodLoad initialWorld).1]; decide!
  · rw [(loadStock_world sampleMath goodLoad initialWorld).1]; decide!

theorem basePrice_default (s : String) (h1 : s ≠ "AAPL") (h2 : s ≠ "TSLA") (h3 : s ≠ "SPY")
    (h4 : s ∉ objectPrototypeKeys) : basePrice s = .num (.fin 100) := by
  simp [basePrice, basePriceTable, h1, h2, h3, h4, orElse, truthy]

/-- C8 (the code at the failing input). The three listed symbols give 175, 250 and
450, `UNKNOWN` gives 100, and a failed load of TSLA synthesises from base 250; but
the symbol `toString`, which is not in the table, does not give 100: the lookup
finds the inherited function, and every synthesised price and the last price are
`NaN`. -/
theorem inherited_name_is_not_defaulted :
    basePrice "AAPL" = .num (.fin 175) ∧ basePrice "TSLA" = .num (.fin 250) ∧
    basePrice "SPY" = .num (.fin 450) ∧ basePrice "UNKNOWN" = .num (.fin 100) ∧
    (loadStock scriptGlobals sampleMath failedLoad initialWorld).world.data =
      demoData sampleMath failedLoad.clock failedLoad.rand "TSLA" ∧
    basePrice "toString" = .obj ∧ basePrice "toString" ≠ .num (.fin 100) ∧
    (demoData sampleMath utcClock (fun _ => 1 / 2) "toString").lastPrice = .num .nan ∧
    (demoData sampleMath utcClock (fun _ => 1 / 2) "toString").history.prices.head? =
      some (.num .nan) := by
  refine ⟨by decide, by decide, by decide, by decide, ?_, by decide, by decide, by decide!,
    by decide!⟩
  exact (loadStock_world sampleMath failedLoad initialWorld).1

/-- C9 (the code at the failing input). At 00:30 local time on Tuesday 2024-01-02 in
a zone one hour ahead of UTC, the first historical day is a local Monday and passes
the weekend filter, but the date string pushed for it is 2023-01-01 (day 19358), a
Sunday; the projection dates contain Sundays as well. -/
theorem local_filter_admits_weekend_dates :
    getDay lateClock (lateClock.now + ((0 : ℤ) - 365) * msPerDay) = 1 ∧
    (demoData sampleMath lateClock (fun _ => 1 / 2) "AAPL").history.dates.head? = some 19358 ∧
    weekdayOf 19358 = 0 ∧
    (demoData sampleMath lateClock (fun _ => 1 / 2) "AAPL").projection.dates.any
      (fun day => decide (weekdayOf day = 0)) = true := by
  decide!

/-! ### Dates of the demo data -/

theorem isoDate_add_day (t : ℤ) : isoDate (t + msPerDay) = isoDate t + 1 := by
  simp only [isoDate, msPerDay]; omega

theorem isoDate_mono {s t : ℤ} (h : s ≤ t) : isoDate s ≤ isoDate t := by
  simp only [isoDate, msPerDay]; omega

theorem getDay_utc (c : Clock) (h : c.offsetMinutes = 0) (t : ℤ) :
    getDay c t = weekdayOf (isoDate t) := by
  simp [getDay, weekdayOf, isoDate, h]

theorem skipWeekend_eq (c : Clock) (t : ℤ) :
    skipWeekend c t =
      if getDay c t = 6 then t + 2 * msPerDay
      else if getDay c t = 0 then t + msPerDay else t := by
  have hstep : ∀ s, getDay c (s + msPerDay) = (getDay c s + 1) % 7 := by
    intro s; simp only [getDay, msPerDay]; omega
  have hweekday : ∀ s, getDay c s ≠ 0 → getDay c s ≠ 6 → skipWeekend c s = s := by
    intro s h0 h6
    rw [skipWeekend]; simp [h0, h6]
  have hsun : ∀ s, getDay c s = 0 → skipWeekend c s = s + msPerDay := by
    intro s h0
    rw [skipWeekend]; simp only [h0, true_or, if_true]
    have h1 : getDay c (s + msPerDay) = 1 := by rw [hstep, h0]; rfl
    exact hweekday _ (by rw [h1]; decide) (by rw [h1]; decide)
  by_cases h6 : getDay c t = 6
  · rw [if_pos h6, skipWeekend]; simp only [h6, or_true, if_true]
    have h0 : getDay c (t + msPerDay) = 0 := by rw [hstep, h6]; rfl
    rw [hsun _ h0]; ring
  · rw [if_neg h6]
    by_cases h0 : getDay c t = 0
    · rw [if_pos h0]; exact hsun t h0
    · rw [if_neg h0]; exact hweekday t h0 h6

theorem skipWeekend_ge (c : Clock) (t : ℤ) : t ≤ skipWeekend c t := by
  rw [skipWeekend_eq]
  split_ifs
  · simp only [msPerDay]; omega
  · simp only [msPerDay]; omega
  · exact le_refl t

theorem skipWeekend_weekday (c : Clock) (t : ℤ) :
    getDay c (skipWeekend c t) ≠ 0 ∧ getDay c (skipWeekend c t) ≠ 6 := by
  rw [skipWeekend_eq]
  split_ifs with h6 h0
  · simp only [getDay, msPerDay] at h6 ⊢; omega
  · simp only [getDay, msPerDay] at h0 ⊢; omega
  · exact ⟨h0, h6⟩

theorem projectionDates_length (c : Clock) : ∀ (n : ℕ) (t : ℤ),
    (projectionDates c n t).length = n := by
  intro n
  induction n with
  | zero => intro t; rfl
  | succ n ih => intro t; simp [projectionDates, ih]

theorem projectionDates_sorted (c : Clock) : ∀ (n : ℕ) (t : ℤ),
    (∀ x ∈ projectionDates c n t, isoDate t < x) ∧
      List.Pairwise (· < ·) (projectionDates c n t) := by
  intro n
  induction n with
  | zero => intro t; simp [projectionDates]
  | succ n ih =>
      intro t
      have hnext : isoDate t < isoDate (skipWeekend c (t + msPerDay)) := by
        have := isoDate_mono (skipWeekend_ge c (t + msPerDay))
        rw [isoDate_add_day] at this
        omega
      obtain ⟨hlow, hsorted⟩ := ih (skipWeekend c (t + msPerDay))
      constructor
      · intro x hx
        simp only [projectionDates, List.mem_cons] at hx
        rcases hx with rfl | hx
        · exact hnext
        · exact lt_trans hnext (hlow x hx)
      · simp only [projectionDates, List.pairwise_cons]
        exact ⟨hlow, hsorted⟩

theorem projectionDates_weekday (c : Clock) (h : c.offsetMinutes = 0) : ∀ (n : ℕ) (t : ℤ),
    ∀ x ∈ projectionDates c n t, weekdayOf x ≠ 0 ∧ weekdayOf x ≠ 6 := by
  intro n
  induction n with
  | zero => intro t x hx; simp [projectionDates] at hx
  | succ n ih =>
      intro t x hx
      simp only [projectionDates, List.mem_cons] at hx
      rcases hx with rfl | hx
      · rw [← getDay_utc c h]; exact skipWeekend_weekday c _
      · exact ih _ x hx

theorem historyRows_sorted (M : MathEnv) (c : Clock) (rand : ℕ → ℚ) (base : Val) :
    List.Pairwise (· < ·) ((historyRows M c rand base).map Prod.fst) := by
  rw [List.pairwise_map]
  unfold historyRows
  refine List.Pairwise.filterMap _ ?_ (List.pairwise_lt_range 365)
  intro i j hij b hb b' hb'
  simp only [Option.mem_def] at hb hb'
  split_ifs at hb hb'
  simp only [Option.some.injEq] at hb hb'
  subst hb; subst hb'
  simp only [isoDate, msPerDay]
  omega

theorem historyRows_weekday (M : MathEnv) (c : Clock) (rand : ℕ → ℚ) (base : Val)
    (h : c.offsetMinutes = 0) :
    ∀ x ∈ (historyRows M c rand base).map Prod.fst, weekdayOf x ≠ 0 ∧ weekdayOf x ≠ 6 := by
  intro x hx
  simp only [historyRows, List.mem_map, List.mem_filterMap, List.mem_range] at hx
  obtain ⟨row, ⟨i, _, hi⟩, rfl⟩ := hx
  split_ifs at hi with hday
  simp only [Option.some.injEq] at hi
  subst hi
  rw [getDay_utc c h] at hday
  exact hday

/-- In a zone whose offset from UTC is fixed, the demo data have equally long
history arrays, 365 projection dates for 365 unset projection prices and strictly
increasing dates; when that offset is zero, no date of either sequence is a Saturday
or a Sunday. Zones that change their offset during the year are outside `Clock`. -/
theorem demoData_invariant (M : MathEnv) (c : Clock) (rand : ℕ → ℚ) (symbol : String) :
    (demoData M c rand symbol).history.dates.length =
      (demoData M c rand symbol).history.prices.length ∧
    (demoData M c rand symbol).projection.dates.length = 365 ∧
    (demoData M c rand symbol).projection.prices = List.replicate 365 Val.null ∧
    (demoData M c rand symbol).currentDay = 0 ∧
    List.Pairwise (· < ·) (demoData M c rand symbol).history.dates ∧
    List.Pairwise (· < ·) (demoData M c rand symbol).projection.dates ∧
    (c.offsetMinutes = 0 →
      (∀ x ∈ (demoData M c rand symbol).history.dates, weekdayOf x ≠ 0 ∧ weekdayOf x ≠ 6) ∧
      (∀ x ∈ (demoData M c rand symbol).projection.dates, weekdayOf x ≠ 0 ∧ weekdayOf x ≠ 6)) := by
  refine ⟨by simp [demoData], projectionDates_length c 365 c.now, rfl, rfl,
    historyRows_sorted M c rand _, (projectionDates_sorted c 365 c.now).2, fun h => ⟨?_, ?_⟩⟩
  · exact historyRows_weekday M c rand _ h
  · exact projectionDates_weekday c h 365 c.now

theorem loadStockTry_data (G : Globals) (inp : LoadInput) (w : World)
    (hG : ∀ f, G.updateStats = some f → ∀ w0, (f w0).world.data = w0.data) :
    (loadStockTry G inp w).world.data = w.data := by
  unfold loadStockTry
  cases hprobe : inp.probe with
  | some message => rfl
  | none =>
    cases hstock : inp.stock with
    | rejected message => rfl
    | resolved data =>
      cases data with
      | none => rfl
      | some body =>
        cases hh : body.history with
        | none => simp only [hh]; rfl
        | some h =>
          cases hp : h.prices with
          | none => simp only [hh, hp]; rfl
          | some prices =>
            cases hgen : G.generateProjectionDates with
            | none => simp only [hh, hp, hgen]; rfl
            | some generate =>
              cases hupd : G.updateStats with
              | none => simp only [hh, hp, hgen, hupd]; rfl
              | some f =>
                simp only [hh, hp, hgen, hupd]
                rw [hG f hupd]; rfl

/-- Whatever `generateProjectionDates` and `updateStats` are bound to, provided
`updateStats` leaves `state.data` alone, `loadStock` ends with `state.data` either
untouched or replaced by the demo data: a payload only ever reaches the variable
`stockData`. -/
theorem loadStock_data_cases (G : Globals) (M : MathEnv) (inp : LoadInput) (w : World)
    (hG : ∀ f, G.updateStats = some f → ∀ w0, (f w0).world.data = w0.data) :
    (loadStock G M inp w).world.data = w.data ∨
      (loadStock G M inp w).world.data = demoData M inp.clock inp.rand inp.symbol := by
  have htry := loadStockTry_data G inp (clearError (showLoading true w)) hG
  unfold loadStock
  cases h1 : loadStockTry G inp (clearError (showLoading true w)) with
  | normal w1 =>
      left
      rw [h1] at htry
      simp only []
      exact htry
  | throw e w1 =>
      right
      have hd := loadDemoData_data M inp.clock inp.rand inp.symbol
        (showError ("Failed to load: " ++ e.message) w1)
      cases hl : loadDemoData M inp.clock inp.rand inp.symbol
          (showError ("Failed to load: " ++ e.message) w1) with
      | normal w2 => rw [hl] at hd; simp only [hl]; exact hd
      | throw e2 w2 => rw [hl] at hd; simp only [hl]; exact hd

/-- A resolved response whose `new_price` is not a number costs two days: below day
364 the call stores the non-numeric value at index `currentDay`, the local price
computed from it at the next index, and ends two days later, without an error. -/
theorem missing_price_advances_two_days (M : MathEnv) (inp : StepInput) (w : World)
    (v shock : Val) (hd : w.data.currentDay + 1 < 365)
    (hp : inp.post = .resolved (some ⟨v, shock⟩)) (hv : ∀ n, v ≠ .num n) :
    ∃ w1, simulateNextDay M inp w = .normal w1 ∧
      w1.data.currentDay = w.data.currentDay + 2 ∧
      jsGet w1.data.projection.prices w.data.currentDay = v ∧
      jsGet w1.data.projection.prices (w.data.currentDay + 1) =
        localPrice M (inp.fallback.gauss M) v := by
  obtain ⟨w1, h1, hd1, _⟩ := simulateNextDay_of_lt M inp w (by omega)
  have hnd : nextDayData M inp w.data =
      storeNext (storeNext w.data v) (localPrice M (inp.fallback.gauss M) v) := by
    have hlt : ¬ (storeNext w.data v).currentDay ≥ 365 := by
      rw [storeNext_day]; omega
    cases v with
    | num n => exact absurd rfl (hv n)
    | _ => simp only [nextDayData, hp, hlt, if_false]
  rw [hnd] at hd1
  refine ⟨w1, h1, by rw [hd1]; rfl, ?_, ?_⟩
  · rw [hd1]
    show jsGet (jsSet (storeNext w.data v).projection.prices (storeNext w.data v).currentDay _)
      w.data.currentDay = v
    rw [jsGet_jsSet_of_ne _ _ _ _ (by rw [storeNext_day]; omega)]
    exact jsGet_storeNext w.data v
  · rw [hd1]
    exact jsGet_storeNext (storeNext w.data v) _

end StockSim
